import Mathlib

/-!
# Board state manager of the advanced kanban board

Shallow embedding of `src/advance kanban board js logic/script.js`.

The script keeps two module-level variables that matter for the board logic:
`state` (the board: `columnsOrder` and `columns`) and `lastDeleted` (the undo
slot).  Every event handler is embedded as a function from the runtime `State`
to an `Outcome`, which records the runtime state when the handler stops and
whether it returned, alerted a validation message, or stopped on a `TypeError`
(reading `.tasks` or `.title` of `undefined`).

Conventions of the embedding:

* `state.columns` is a JavaScript object; it is embedded as an association list
  of its own properties in insertion order.  Reading, writing and deleting a
  key act on the first entry with that key, so the functions are total on
  every list.  A read of a key that is not an own property finds what every
  object inherits from `Object.prototype` (`constructor`, `toString`, ...):
  `readCol` tells an own column, an inherited value and `undefined` apart, and
  is used wherever the script tests the value read for truthiness.
* Environment inputs are parameters: the result of `confirm`, of `prompt`, of
  `uid()`, of `nowIso()`, the values of the modal inputs, and the dragged DOM
  card.
* Task objects are embedded as values.  The handlers never assign `task.id`,
  so every statement about task identifiers is independent of object identity.
  An edit of a task changes the one occurrence the handler finds, which agrees
  with the script whenever that task object is referenced only there, not a
  second time on the board or from the undo slot.
* Persistence (`saveState`) and DOM rendering (`renderBoard`) do not change
  `state` or `lastDeleted`.  `renderBoard` throws when `columnsOrder` lists an
  inherited name that has no own column (`renderBoardThrows`).  That is
  embedded in the undo handler, the one handler in which a statement on these
  variables (`lastDeleted = null`) follows the rendering; for every other
  handler the outcome describes its statements up to `saveState()`.
-/

namespace Kanban

/-! ## Data model (script.js lines 18-27, 52-64) -/

/-- Entry of `task.subtasks`: `{id, text, done}`. -/
structure Subtask where
  id : String
  text : String
  done : Bool
deriving DecidableEq, Repr

/-- Entry of `task.comments`: `{id, text, when}`. -/
structure Comment where
  id : String
  text : String
  whenIso : String
deriving DecidableEq, Repr

/-- Task object `{id, title, description, priority, due, subtasks, comments, createdAt}`. -/
structure Task where
  id : String
  title : String
  description : String
  priority : String
  due : String
  subtasks : List Subtask
  comments : List Comment
  createdAt : String
deriving DecidableEq, Repr

/-- Column object `{id, title, tasks}`. -/
structure Column where
  id : String
  title : String
  tasks : List Task
deriving DecidableEq, Repr

/-- The module variable `state`: `{columnsOrder, columns}`. -/
structure Board where
  columnsOrder : List String
  columns : List (String × Column)
deriving DecidableEq, Repr

/-- The module variable `lastDeleted` when it is not `null`: `{task, columnId, index}`. -/
structure LastDeleted where
  task : Task
  columnId : String
  index : Nat
deriving DecidableEq, Repr

/-- Runtime state read and written by the handlers: `state` and `lastDeleted`. -/
structure State where
  board : Board
  lastDeleted : Option LastDeleted
deriving DecidableEq, Repr

/-- How a handler stops, with the runtime state at that moment.
`done`: the handler returned; `rejected`: it alerted a validation message and
returned; `threw`: a `TypeError` ended it (statements after the throw did not run). -/
inductive Outcome where
  | done (s : State)
  | rejected (s : State)
  | threw (s : State)
deriving DecidableEq, Repr

/-- Runtime state when the handler stopped. -/
def Outcome.state : Outcome → State
  | .done s => s
  | .rejected s => s
  | .threw s => s

/-- Result of a helper that may stop on a `TypeError`. -/
inductive Completion (α : Type) where
  | normal (v : α)
  | typeError
deriving DecidableEq, Repr

/-- The initial value of `state` (script.js lines 52-59). -/
def defaultBoard : Board :=
  { columnsOrder := ["todo", "progress", "done"]
    columns :=
      [ ("todo", { id := "todo", title := "To Do", tasks := [] }),
        ("progress", { id := "progress", title := "In Progress", tasks := [] }),
        ("done", { id := "done", title := "Done", tasks := [] }) ] }

/-- Runtime state at script start when nothing is stored: default board, `lastDeleted = null`. -/
def initialState : State := { board := defaultBoard, lastDeleted := none }

/-! ## JavaScript primitives used by the handlers -/

/-- Characters removed by `String.prototype.trim` (WhiteSpace and LineTerminator). -/
def isJsWhiteSpace (c : Char) : Bool :=
  let n := c.toNat
  n == 0x09 || n == 0x0A || n == 0x0B || n == 0x0C || n == 0x0D || n == 0x20 ||
  n == 0xA0 || n == 0x1680 || (0x2000 ≤ n && n ≤ 0x200A) || n == 0x2028 ||
  n == 0x2029 || n == 0x202F || n == 0x205F || n == 0x3000 || n == 0xFEFF

/-- Models `s.trim()`. -/
def jsTrim (s : String) : String :=
  String.mk (((s.data.dropWhile isJsWhiteSpace).reverse.dropWhile isJsWhiteSpace).reverse)

/-- Models `Array.prototype.indexOf`: first position of `x`, `-1` when absent. -/
def indexOf (xs : List String) (x : String) : Int :=
  match xs with
  | [] => -1
  | y :: ys =>
    if y = x then 0
    else
      let r := indexOf ys x
      if r < 0 then -1 else r + 1

/-- Start position used by `splice`: a negative `start` counts from the end. -/
def spliceStart (len : Nat) (start : Int) : Nat :=
  if start < 0 then (Int.ofNat len + start).toNat else min start.toNat len

/-- Models `xs.splice(start, deleteCount, ...items)`: the array afterwards and the removed
elements. -/
def splice {α : Type} (xs : List α) (start : Int) (deleteCount : Nat) (items : List α) :
    List α × List α :=
  let s := spliceStart xs.length start
  let d := min deleteCount (xs.length - s)
  (xs.take s ++ items ++ xs.drop (s + d), (xs.drop s).take d)

/-- Models `tasks.findIndex(x => x.id === id)` together with the element at that index:
`none` stands for `-1`. -/
def findIndexById (id : String) : List Task → Option (Nat × Task)
  | [] => none
  | t :: ts =>
    if t.id = id then some (0, t)
    else
      match findIndexById id ts with
      | some (i, r) => some (i + 1, r)
      | none => none

/-- Property key used when a value is an index into an object: `undefined` becomes the key
`"undefined"`. -/
def keyOf : Option String → String
  | some k => k
  | none => "undefined"

/-- The own property `key` of the object `columns`; `none` when there is no own property with
that key.  It stands for `columns[key]` where the script at once reads `.tasks` and a method
or `length` of it: an inherited value has no `tasks`, so that read throws a `TypeError` in the
same way as for `undefined`. -/
def getCol : List (String × Column) → String → Option Column
  | [], _ => none
  | (k, c) :: rest, key => if k = key then some c else getCol rest key

/-- The property names that every object inherits from `Object.prototype`.  Their values are
functions (for `__proto__` the prototype object): truthy, without `tasks` and `title`. -/
def inheritedNames : List String :=
  [ "constructor", "__proto__", "hasOwnProperty", "isPrototypeOf", "propertyIsEnumerable",
    "toLocaleString", "toString", "valueOf", "__defineGetter__", "__defineSetter__",
    "__lookupGetter__", "__lookupSetter__" ]

/-- What reading `columns[key]` gives: an own column, a value inherited from
`Object.prototype`, or `undefined`. -/
inductive PropValue where
  | column (c : Column)
  | inherited
  | undefined
deriving DecidableEq, Repr

/-- Models reading `columns[key]` where the script tests the result for truthiness: an own
column and an inherited value are truthy, `undefined` is falsy. -/
def readCol (cols : List (String × Column)) (key : String) : PropValue :=
  match getCol cols key with
  | some c => .column c
  | none => if key ∈ inheritedNames then .inherited else .undefined

/-- Models `columns[key] = c`. -/
def setCol : List (String × Column) → String → Column → List (String × Column)
  | [], key, c => [(key, c)]
  | (k, c0) :: rest, key, c =>
    if k = key then (k, c) :: rest else (k, c0) :: setCol rest key c

/-- Models an in-place change of `columns[key].tasks` for a key that is present. -/
def setTasks : List (String × Column) → String → List Task → List (String × Column)
  | [], _, _ => []
  | (k, c0) :: rest, key, ts =>
    if k = key then (k, { c0 with tasks := ts }) :: rest else (k, c0) :: setTasks rest key ts

/-- Models `delete columns[key]`. -/
def deleteCol (cols : List (String × Column)) (key : String) : List (String × Column) :=
  cols.filter (fun p => p.1 ≠ key)

/-! ## Find / remove / reconstruct helpers (script.js lines 310-334, 395-401) -/

/-- Loop of `findTaskById` over the remaining ids of `state.columnsOrder`. -/
def findTaskByIdLoop (cols : List (String × Column)) (id : String) :
    List String → Completion (Option Task)
  | [] => .normal none
  | cId :: rest =>
    match getCol cols cId with
    | none => .typeError
    | some col =>
      match col.tasks.find? (fun x => x.id = id) with
      | some t => .normal (some t)
      | none => findTaskByIdLoop cols id rest

/-- Embeds `findTaskById(id)` (script.js lines 311-317). -/
def findTaskById (b : Board) (id : String) : Completion (Option Task) :=
  findTaskByIdLoop b.columns id b.columnsOrder

/-- Value returned by `removeTaskById` when it is not `null`: `{removed, from, index}`. -/
structure RemovedInfo where
  removed : Task
  srcColumn : String
  index : Nat
deriving DecidableEq, Repr

/-- Loop of `removeTaskById` over the remaining ids of `state.columnsOrder`. -/
def removeTaskByIdLoop (s : State) (id : String) :
    List String → Completion (State × Option RemovedInfo)
  | [] => .normal (s, none)
  | cId :: rest =>
    match getCol s.board.columns cId with
    | none => .typeError
    | some col =>
      match findIndexById id col.tasks with
      | some (idx, removed) =>
        .normal
          ({ board := { s.board with
                columns := setTasks s.board.columns cId (splice col.tasks idx 1 []).1 }
             lastDeleted := some { task := removed, columnId := cId, index := idx } },
           some { removed := removed, srcColumn := cId, index := idx })
      | none => removeTaskByIdLoop s id rest

/-- Embeds `removeTaskById(id)` (script.js lines 318-328): removes the first task with this
id from the first listed column that has one and records it in `lastDeleted`. -/
def removeTaskById (s : State) (id : String) : Completion (State × Option RemovedInfo) :=
  removeTaskByIdLoop s id s.board.columnsOrder

/-- The dragged card as far as the drop handler reads it: `dataset.id`, the text of its `h2`,
the text of its first `.small` element and the class list of its `.pri` element
(`none` when the element is missing). -/
structure DragEl where
  dataId : String
  h2Text : Option String
  smallText : Option String
  priClasses : Option (List String)
deriving DecidableEq, Repr

/-- Models `x?.innerText || fallback`. -/
def textOr (x : Option String) (fallback : String) : String :=
  match x with
  | some t => if t = "" then fallback else t
  | none => fallback

/-- Embeds `reconstructFromEl(el, id)` (script.js lines 329-334); `now` is `nowIso()`. -/
def reconstructFromEl (el : DragEl) (id : String) (now : String) : Task :=
  let title := textOr el.h2Text "Untitled"
  let desc := textOr el.smallText ""
  let pri :=
    match el.priClasses with
    | some cls => if "high" ∈ cls then "high" else if "med" ∈ cls then "med" else "low"
    | none => "low"
  { id := id, title := title, description := desc, priority := pri, due := "",
    subtasks := [], comments := [], createdAt := now }

/-- Loop of `findTaskColumn` over the remaining ids of `state.columnsOrder`. -/
def findTaskColumnLoop (cols : List (String × Column)) (id : String) :
    List String → Completion (Option String)
  | [] => .normal none
  | cId :: rest =>
    match getCol cols cId with
    | none => .typeError
    | some col =>
      if col.tasks.any (fun x => x.id = id) then .normal (some cId)
      else findTaskColumnLoop cols id rest

/-- Embeds `findTaskColumn(id)` (script.js lines 396-401). -/
def findTaskColumn (b : Board) (id : String) : Completion (Option String) :=
  findTaskColumnLoop b.columns id b.columnsOrder

/-! ## Column operations (script.js lines 223-259) -/

/-- Embeds `renameColumn(colId)` (script.js lines 226-233); `answer` is the result of `prompt`
(`none` for `null`).  For an inherited value `.title || colId` does not throw and the new
title is written on that value, not on the board. -/
def renameColumn (s : State) (colId : String) (answer : Option String) : Outcome :=
  match readCol s.board.columns colId with
  | .undefined => .threw s
  | .inherited => .done s
  | .column col =>
    match answer with
    | none => .done s
    | some newName =>
      if jsTrim newName ≠ "" then
        .done { s with board := { s.board with
          columns := setCol s.board.columns colId { col with title := jsTrim newName } } }
      else .done s

/-- Embeds lines 242-244 of `removeColumn`:
`if (target && state.columns[colId] && state.columns[colId].tasks.length)` then every task of
the removed column is pushed, in order, onto `state.columns[target].tasks`.  The empty string
is a falsy `target`; an inherited value for `colId` is truthy and has no `tasks`, so reading
`.tasks.length` throws. -/
def pushTasksToTarget (cols : List (String × Column)) (target : Option String)
    (colId : String) : Completion (List (String × Column)) :=
  match target with
  | none => .normal cols
  | some tgt =>
    if tgt = "" then .normal cols
    else
      match readCol cols colId with
      | .undefined => .normal cols
      | .inherited => .typeError
      | .column col =>
        if col.tasks.length ≠ 0 then
          match getCol cols tgt with
          | none => .typeError
          | some tcol => .normal (setTasks cols tgt (tcol.tasks ++ col.tasks))
        else .normal cols

/-- Embeds `removeColumn(colId)` (script.js lines 236-248); `confirmed` is the result of
`confirm`. -/
def removeColumn (s : State) (colId : String) (confirmed : Bool) : Outcome :=
  if !confirmed then .done s
  else
    let idx := indexOf s.board.columnsOrder colId
    let order := (splice s.board.columnsOrder idx 1 []).1
    let target := order.head?
    match pushTasksToTarget s.board.columns target colId with
    | .typeError => .threw { s with board := { s.board with columnsOrder := order } }
    | .normal cols =>
      .done { s with board := { columnsOrder := order, columns := deleteCol cols colId } }

/-- Embeds `addColumn()`; `title` is the result of `prompt`, `uid` the result of `uid()`. -/
def addColumn (s : State) (title : Option String) (uid : String) : Outcome :=
  match title with
  | none => .done s
  | some t =>
    if t = "" then .done s
    else
      let id := "col_" ++ uid
      .done { s with board :=
        { columnsOrder := s.board.columnsOrder ++ [id]
          columns := setCol s.board.columns id { id := id, title := jsTrim t, tasks := [] } } }

/-! ## Task operations -/

/-- Embeds the `drop` handler of a column (script.js lines 276-307), the board's moveTask:
`dragItem` is the dragged card, `destId` the column of the handler, `insertIndex` the index
computed from the pointer position, `now` the result of `nowIso()`. -/
def moveTask (s : State) (dragItem : Option DragEl) (destId : String) (insertIndex : Nat)
    (now : String) : Outcome :=
  match dragItem with
  | none => .done s
  | some el =>
    let draggedId := el.dataId
    match removeTaskById s draggedId with
    | .typeError => .threw s
    | .normal (s1, removedInfo) =>
      let found : Completion (Option Task) :=
        match removedInfo with
        | some info => .normal (some info.removed)
        | none => findTaskById s1.board draggedId
      match found with
      | .typeError => .threw s1
      | .normal found? =>
        let taskObj :=
          match found? with
          | some t => t
          | none => reconstructFromEl el draggedId now
        match getCol s1.board.columns destId with
        | none => .threw s1
        | some dcol =>
          .done { s1 with board := { s1.board with
            columns := setTasks s1.board.columns destId
              (splice dcol.tasks insertIndex 0 [taskObj]).1 } }

/-- Embeds the `delete` action of the click handler (script.js lines 344-350), the board's
deleteTask. -/
def deleteTask (s : State) (id : String) : Outcome :=
  match removeTaskById s id with
  | .typeError => .threw s
  | .normal (s1, _) => .done s1

/-- Embeds the `save-task` click handler (script.js lines 424-454), the board's addTask
(`editingId = none`) and editTask.  The arguments are the module variable `editingId`, the
values of the title, description, priority, due and column inputs, and the results of `uid()`
and `nowIso()`. -/
def saveTask (s : State) (editingId : Option String) (titleInput descInput priorityInput
    dueInput columnInput : String) (uid now : String) : Outcome :=
  let title := jsTrim titleInput
  if title = "" then .rejected s
  else
    let desc := jsTrim descInput
    let priority := priorityInput
    let due := dueInput
    let columnOpt := if columnInput ≠ "" then some columnInput else s.board.columnsOrder.head?
    let column := keyOf columnOpt
    let editing : Bool :=
      match editingId with
      | some e => e != ""
      | none => false
    if editing then
      let eid := keyOf editingId
      match findTaskColumn s.board eid with
      | .typeError => .threw s
      | .normal none => .done s
      | .normal (some col) =>
        if col = "" then .done s
        else
          match getCol s.board.columns col with
          | none => .threw s
          | some c =>
            match findIndexById eid c.tasks with
            | none => .done s
            | some (idx, t0) =>
              let t := { t0 with title := title, description := desc, priority := priority,
                                 due := due }
              let edited := (splice c.tasks idx 1 [t]).1
              let s1 : State := { s with board := { s.board with
                columns := setTasks s.board.columns col edited } }
              if some col ≠ columnOpt then
                let s2 : State := { s1 with board := { s1.board with
                  columns := setTasks s1.board.columns col (splice edited idx 1 []).1 } }
                match getCol s2.board.columns column with
                | none => .threw s2
                | some dcol =>
                  .done { s2 with board := { s2.board with
                    columns := setTasks s2.board.columns column (dcol.tasks ++ [t]) } }
              else .done s1
    else
      let newTask : Task :=
        { id := uid, title := title, description := desc, priority := priority, due := due,
          subtasks := [], comments := [], createdAt := now }
      match getCol s.board.columns column with
      | none => .threw s
      | some c =>
        .done { s with board := { s.board with
          columns := setTasks s.board.columns column (c.tasks ++ [newTask]) } }

/-- The board's addTask: the save handler with `editingId = null`. -/
def addTask (s : State) (columnId title description priority due : String)
    (uid now : String) : Outcome :=
  saveTask s none title description priority due columnId uid now

/-- The board's editTask: the save handler with `editingId = taskId`.  The results of `uid()`
and `nowIso()` are read by the add branch only. -/
def editTask (s : State) (taskId title description priority due targetColumnId : String) :
    Outcome :=
  saveTask s (some taskId) title description priority due targetColumnId "" ""

/-- Embeds `renderBoard` as far as it can fail (script.js lines 101-119): for a listed id,
`if (!col) return` skips `undefined`, an own column renders, and an inherited value passes the
test and throws at `col.tasks.length`. -/
def renderBoardThrows (b : Board) : Bool :=
  b.columnsOrder.any (fun cId =>
    match readCol b.columns cId with
    | .inherited => true
    | _ => false)

/-- Embeds lines 499-505 of the undo handler: the mapping after the task of the slot is put
back, or a `TypeError`.  `!state.columns[columnId]` holds for `undefined` only; for an
inherited value the else branch reads `.tasks.splice` of it and throws. -/
def restoreTask (b : Board) (ld : LastDeleted) : Completion (List (String × Column)) :=
  match readCol b.columns ld.columnId with
  | .undefined =>
    let first := keyOf b.columnsOrder.head?
    match getCol b.columns first with
    | none => .typeError
    | some fcol => .normal (setTasks b.columns first (splice fcol.tasks 0 0 [ld.task]).1)
  | .inherited => .typeError
  | .column col =>
    .normal (setTasks b.columns ld.columnId (splice col.tasks ld.index 0 [ld.task]).1)

/-- Embeds the click handler of the undo button (script.js lines 495-510), the board's
undoDelete: restore, `saveState()`, `renderBoard()`, and only then `lastDeleted = null`. -/
def undoDelete (s : State) : Outcome :=
  match s.lastDeleted with
  | none => .done s
  | some ld =>
    match restoreTask s.board ld with
    | .typeError => .threw s
    | .normal cols =>
      if renderBoardThrows { s.board with columns := cols } then
        .threw { board := { s.board with columns := cols }, lastDeleted := some ld }
      else
        .done { board := { s.board with columns := cols }, lastDeleted := none }

/-- The task object after the assignments of line 437 of the save handler:
`t.title = title; t.description = desc; t.priority = priority; t.due = due`, with the trimmed
title and description; every other field is the task's own. -/
def editedTask (t : Task) (title description priority due : String) : Task :=
  { t with title := jsTrim title, description := jsTrim description, priority := priority,
           due := due }

/-! ## Import (script.js lines 524-560) -/

/-- The parsed document as far as the handler reads it.  `none` stands for a field that is
missing, `null` or otherwise falsy; a field that is present has the shape of the board's own
field (an array of ids, an object of columns), which is truthy even when empty. -/
structure Snapshot where
  columnsOrder : Option (List String)
  columns : Option (List (String × Column))
deriving DecidableEq, Repr

/-- The `forEach` of the merge branch over the remaining ids of `parsed.columnsOrder`
(script.js lines 541-549).  `adopted` lists the ids whose column object was taken over from the
document by an earlier iteration: for those, `parsed.columns[cid]` is the board's own column
object.  `!state.columns[cid]` holds for `undefined` only: an inherited value sends the loop to
the else branch, where `.tasks.concat` of it throws.  In the else branch
`parsed.columns[cid].tasks || []` throws for `undefined` and is `[]` for an inherited value.
The result is the board when the loop stops and whether it stopped on a `TypeError`. -/
def mergeLoop (pcols : List (String × Column)) :
    Board → List String → List String → Board × Bool
  | b, _, [] => (b, false)
  | b, adopted, cid :: rest =>
    match readCol b.columns cid with
    | .undefined =>
      let order := b.columnsOrder ++ [cid]
      match getCol pcols cid with
      | some pc =>
        mergeLoop pcols { columnsOrder := order, columns := setCol b.columns cid pc }
          (cid :: adopted) rest
      | none => mergeLoop pcols { b with columnsOrder := order } adopted rest
    | .inherited => (b, true)
    | .column col =>
      if cid ∈ adopted then
        mergeLoop pcols { b with columns := setTasks b.columns cid (col.tasks ++ col.tasks) }
          adopted rest
      else
        match readCol pcols cid with
        | .undefined => (b, true)
        | .inherited =>
          mergeLoop pcols { b with columns := setTasks b.columns cid (col.tasks ++ []) }
            adopted rest
        | .column pc =>
          mergeLoop pcols { b with columns := setTasks b.columns cid (col.tasks ++ pc.tasks) }
            adopted rest

/-- Embeds the body of `reader.onload` after `JSON.parse` (script.js lines 531-552), the
board's importSnapshot: `replace` is the result of `confirm`.  A `TypeError` in the merge loop
is caught by the handler, which alerts and keeps the state reached so far. -/
def importSnapshot (s : State) (parsed : Snapshot) (replace : Bool) : Outcome :=
  match parsed.columnsOrder, parsed.columns with
  | some order, some cols =>
    if replace then .done { s with board := { columnsOrder := order, columns := cols } }
    else
      match mergeLoop cols s.board [] order with
      | (b, false) => .done { s with board := b }
      | (b, true) => .threw { s with board := b }
  | _, _ => .rejected s

/-! ## Properties of boards used in the statements -/

/-- Every id of `columnsOrder` has a column in the mapping. -/
def orderHasColumns (b : Board) : Prop :=
  ∀ cId, cId ∈ b.columnsOrder → ∃ col, getCol b.columns cId = some col

/-- Every key of the mapping is in `columnsOrder`. -/
def columnsInOrder (b : Board) : Prop :=
  ∀ p, p ∈ b.columns → p.1 ∈ b.columnsOrder

/-- The columnOrder/mapping invariant of the data model. -/
def boardInv (b : Board) : Prop := orderHasColumns b ∧ columnsInOrder b

/-- A task with this id is in a column listed by `columnsOrder`. -/
def taskPresent (b : Board) (id : String) : Prop :=
  ∃ cId, cId ∈ b.columnsOrder ∧ ∃ col, getCol b.columns cId = some col ∧
    ∃ t, t ∈ col.tasks ∧ t.id = id

/-- Identifiers of all tasks of the given mapping entries, column by column. -/
def taskIdsOf : List (String × Column) → List String
  | [] => []
  | p :: rest => p.2.tasks.map (fun t => t.id) ++ taskIdsOf rest

/-- Identifiers of all tasks of all columns of the board's mapping, with repetition. -/
def taskIds (b : Board) : List String := taskIdsOf b.columns

/-! ## Sequences of operations -/

/-- One call of a board operation together with its environment inputs
(`removeColumn` is the confirmed call). -/
inductive Op where
  | addTask (columnId title description priority due uid now : String)
  | editTask (taskId title description priority due targetColumnId : String)
  | deleteTask (id : String)
  | undoDelete
  | moveTask (el : DragEl) (destId : String) (destIndex : Nat) (now : String)
  | removeColumn (colId : String)
deriving DecidableEq, Repr

/-- Runs one operation. -/
def applyOp (s : State) : Op → Outcome
  | .addTask columnId title description priority due uid now =>
    addTask s columnId title description priority due uid now
  | .editTask taskId title description priority due targetColumnId =>
    editTask s taskId title description priority due targetColumnId
  | .deleteTask id => deleteTask s id
  | .undoDelete => undoDelete s
  | .moveTask el destId destIndex now => moveTask s (some el) destId destIndex now
  | .removeColumn colId => removeColumn s colId true

/-- Runs the operations one after the other; each starts in the runtime state in which the
previous one stopped. -/
def run : State → List Op → State
  | s, [] => s
  | s, op :: rest => run (applyOp s op).state rest

/-- The operation is one of addTask, deleteTask, moveTask. -/
def isTaskOp : Op → Bool
  | .addTask .. => true
  | .deleteTask _ => true
  | .moveTask .. => true
  | _ => false

/-- Identifier added to the board by the operation when run in `s`: the fresh id of an
addTask that appended its task. -/
def addedBy (s : State) : Op → List String
  | .addTask columnId title description priority due uid now =>
    match addTask s columnId title description priority due uid now with
    | .done _ => [uid]
    | _ => []
  | _ => []

/-- Identifier removed from the board by the operation when run in `s`: the id of the task
that a deleteTask removed. -/
def removedBy (s : State) : Op → List String
  | .deleteTask id =>
    match removeTaskById s id with
    | .normal (_, some info) => [info.removed.id]
    | _ => []
  | _ => []

/-- Identifiers added by the addTask calls of the sequence started in `s`. -/
def addedIds : State → List Op → List String
  | _, [] => []
  | s, op :: rest => addedBy s op ++ addedIds (applyOp s op).state rest

/-- Identifiers removed by the deleteTask calls of the sequence started in `s`. -/
def removedIds : State → List Op → List String
  | _, [] => []
  | s, op :: rest => removedBy s op ++ removedIds (applyOp s op).state rest

/-- Every moveTask of the sequence started in `s` names, when its turn comes, a task that is
present in a listed column and a destination column that exists. -/
def movesResolve : State → List Op → Prop
  | _, [] => True
  | s, op :: rest =>
    (match op with
      | .moveTask el destId _ _ =>
        taskPresent s.board el.dataId ∧ ∃ col, getCol s.board.columns destId = some col
      | _ => True) ∧
    movesResolve (applyOp s op).state rest

/-! ## Example boards -/

/-- A task with the given id and title, no description, low priority. -/
def sampleTask (id title : String) : Task :=
  { id := id, title := title, description := "", priority := "low", due := "",
    subtasks := [], comments := [], createdAt := "2024-01-01T00:00:00.000Z" }

/-- The card rendered for a task, as the drop handler reads it. -/
def cardOf (t : Task) : DragEl :=
  { dataId := t.id, h2Text := some t.title, smallText := some t.description,
    priClasses := some ["pri", t.priority] }

/-- The default board with the tasks A, B, C in "todo". -/
def abcState : State :=
  { board :=
      { columnsOrder := ["todo", "progress", "done"]
        columns :=
          [ ("todo", { id := "todo", title := "To Do",
                       tasks := [sampleTask "a" "A", sampleTask "b" "B", sampleTask "c" "C"] }),
            ("progress", { id := "progress", title := "In Progress", tasks := [] }),
            ("done", { id := "done", title := "Done", tasks := [] }) ] }
    lastDeleted := none }

/-- A sequence of task operations on `abcState`: add a task to "todo", delete A, drag B to
"done". -/
def sampleOps : List Op :=
  [ .addTask "todo" "New" "" "low" "" "u1" "2024-01-02T00:00:00.000Z",
    .deleteTask "a",
    .moveTask (cardOf (sampleTask "b" "B")) "done" 0 "2024-01-02T00:00:00.000Z" ]

/-- A document that passes the import validation (both fields present) although its column
order names "extra", for which it has no column. -/
def danglingSnapshot : Snapshot :=
  { columnsOrder := some ["todo", "extra"]
    columns := some [("todo", { id := "todo", title := "To Do", tasks := [] })] }

/-- A board whose second column has the empty string as id; "x" holds one task. -/
def emptyIdState : State :=
  { board :=
      { columnsOrder := ["x", ""]
        columns :=
          [ ("x", { id := "x", title := "X", tasks := [sampleTask "t" "T"] }),
            ("", { id := "", title := "Unnamed", tasks := [] }) ] }
    lastDeleted := none }

/-- A board whose column order lists the id "a" twice; "a" holds one task. -/
def repeatedIdState : State :=
  { board :=
      { columnsOrder := ["a", "a"]
        columns := [("a", { id := "a", title := "A", tasks := [sampleTask "t" "T"] })] }
    lastDeleted := none }

/-- The default board with task X in "progress". -/
def progressState : State :=
  { board :=
      { columnsOrder := ["todo", "progress", "done"]
        columns :=
          [ ("todo", { id := "todo", title := "To Do", tasks := [sampleTask "a" "A"] }),
            ("progress", { id := "progress", title := "In Progress",
                           tasks := [sampleTask "x" "X"] }),
            ("done", { id := "done", title := "Done", tasks := [] }) ] }
    lastDeleted := none }

/-- A board whose column order starts with "ghost", an id without a column; "todo" holds A
and B. -/
def ghostOrderState : State :=
  { board :=
      { columnsOrder := ["ghost", "todo"]
        columns :=
          [ ("todo", { id := "todo", title := "To Do",
                       tasks := [sampleTask "a" "A", sampleTask "b" "B"] }) ] }
    lastDeleted := none }

/-- A document with the columns "done" (one task) and "review" (one task). -/
def reviewSnapshot : Snapshot :=
  { columnsOrder := some ["done", "review"]
    columns := some
      [ ("done", { id := "done", title := "Finished", tasks := [sampleTask "d" "D"] }),
        ("review", { id := "review", title := "Review", tasks := [sampleTask "a" "A2"] }) ] }

/-- A state with a pending undo slot whose column "gone" is no longer a key, on a board whose
column order starts with "ghost", an id without a column. -/
def ghostFirstState : State :=
  { board := ghostOrderState.board
    lastDeleted := some { task := sampleTask "t" "T", columnId := "gone", index := 0 } }

/-- The board with tasks A, B, C after B was deleted: B is in the undo slot. -/
def pendingUndoState : State :=
  { board :=
      { columnsOrder := ["todo", "progress", "done"]
        columns :=
          [ ("todo", { id := "todo", title := "To Do",
                       tasks := [sampleTask "a" "A", sampleTask "c" "C"] }),
            ("progress", { id := "progress", title := "In Progress", tasks := [] }),
            ("done", { id := "done", title := "Done", tasks := [] }) ] }
    lastDeleted := some { task := sampleTask "b" "B", columnId := "todo", index := 1 } }

/-- A board whose first column has the empty string as id and holds one task. -/
def emptySrcState : State :=
  { board :=
      { columnsOrder := ["", "x"]
        columns :=
          [ ("", { id := "", title := "Unnamed", tasks := [sampleTask "t" "T"] }),
            ("x", { id := "x", title := "X", tasks := [] }) ] }
    lastDeleted := none }

/-- A board with one task whose id is the empty string. -/
def emptyTaskIdState : State :=
  { board :=
      { columnsOrder := ["todo"]
        columns := [("todo", { id := "todo", title := "To Do", tasks := [sampleTask "" "T"] })] }
    lastDeleted := none }

/-- A document with the one column "constructor", a name every object inherits. -/
def constructorSnapshot : Snapshot :=
  { columnsOrder := some ["constructor"]
    columns := some
      [("constructor", { id := "constructor", title := "Ctor",
                         tasks := [sampleTask "k" "K"] })] }

/-- A state with B in the undo slot on a board whose column order lists "toString", an
inherited name without a column. -/
def inheritedListedState : State :=
  { board :=
      { columnsOrder := ["todo", "toString"]
        columns := [("todo", { id := "todo", title := "To Do", tasks := [sampleTask "a" "A"] })] }
    lastDeleted := some { task := sampleTask "b" "B", columnId := "todo", index := 0 } }

/-- A state whose undo slot names the column "constructor", which has been removed. -/
def removedConstructorState : State :=
  { board :=
      { columnsOrder := ["todo"]
        columns := [("todo", { id := "todo", title := "To Do", tasks := [sampleTask "a" "A"] })] }
    lastDeleted := some { task := sampleTask "k" "K", columnId := "constructor", index := 0 } }

/-- A document with an empty column order and an empty column mapping. -/
def emptySnapshot : Snapshot := { columnsOrder := some [], columns := some [] }

/-- A document with a column order and no column mapping. -/
def orderOnlySnapshot : Snapshot := { columnsOrder := some ["todo"], columns := none }

/-- Tasks of the column under a key, none when the key is missing. -/
def tasksAt (cols : List (String × Column)) (k : String) : List Task :=
  match getCol cols k with
  | some col => col.tasks
  | none => []

instance (b : Board) (id : String) : Decidable (taskPresent b id) := by
  unfold taskPresent
  refine decidable_of_iff
    (∃ cId, cId ∈ b.columnsOrder ∧ ∃ t, t ∈ tasksAt b.columns cId ∧ t.id = id) ?_
  constructor
  · rintro ⟨cId, hm, t, ht, hid⟩
    unfold tasksAt at ht
    cases hc : getCol b.columns cId with
    | none => simp [hc] at ht
    | some col =>
      simp only [hc] at ht
      exact ⟨cId, hm, col, hc, t, ht, hid⟩
  · rintro ⟨cId, hm, col, hc, t, ht, hid⟩
    refine ⟨cId, hm, t, ?_, hid⟩
    simp only [tasksAt, hc]
    exact ht

instance (b : Board) : Decidable (orderHasColumns b) := by
  unfold orderHasColumns
  exact decidable_of_iff (∀ cId ∈ b.columnsOrder, (getCol b.columns cId).isSome = true)
    (by simp [Option.isSome_iff_exists])

instance (b : Board) : Decidable (columnsInOrder b) := by
  unfold columnsInOrder
  infer_instance

instance (b : Board) : Decidable (boardInv b) := by
  unfold boardInv
  infer_instance

/-! ## Lemmas on the primitives -/

theorem spliceStart_natCast (len n : Nat) : spliceStart len (n : Int) = min n len := by
  unfold spliceStart
  have h : ¬ ((n : Int) < 0) := by omega
  simp [h]

theorem splice_natCast_fst {α : Type} (xs : List α) (n d : Nat) (items : List α) :
    (splice xs (n : Int) d items).1 =
      xs.take (min n xs.length) ++ items ++
        xs.drop (min n xs.length + min d (xs.length - min n xs.length)) := by
  simp [splice, spliceStart_natCast]

theorem splice_insert {α : Type} (xs : List α) (n : Nat) (x : α) :
    (splice xs (n : Int) 0 [x]).1 = xs.take n ++ x :: xs.drop n := by
  rw [splice_natCast_fst]
  rcases Nat.le_total n xs.length with h | h
  · simp [Nat.min_eq_left h]
  · simp [Nat.min_eq_right h, List.take_of_length_le h, List.drop_of_length_le h]

theorem splice_remove {α : Type} (xs : List α) (n : Nat) (h : n < xs.length) :
    (splice xs (n : Int) 1 []).1 = xs.take n ++ xs.drop (n + 1) := by
  rw [splice_natCast_fst]
  have h1 : min n xs.length = n := Nat.min_eq_left (Nat.le_of_lt h)
  have h2 : min 1 (xs.length - n) = 1 := Nat.min_eq_left (by omega)
  simp [h1, h2]

theorem findIndexById_spec (id : String) (ts : List Task) (i : Nat) (t : Task)
    (h : findIndexById id ts = some (i, t)) :
    i < ts.length ∧ t.id = id ∧ ts = ts.take i ++ t :: ts.drop (i + 1) ∧
      ∀ x, x ∈ ts.take i → x.id ≠ id := by
  induction ts generalizing i with
  | nil => simp [findIndexById] at h
  | cons a as ih =>
    unfold findIndexById at h
    split at h
    · rename_i ha
      simp only [Option.some.injEq, Prod.mk.injEq] at h
      obtain ⟨rfl, rfl⟩ := h
      simp [ha]
    · rename_i ha
      cases hr : findIndexById id as with
      | none => simp [hr] at h
      | some q =>
        obtain ⟨j, r⟩ := q
        simp only [hr, Option.some.injEq, Prod.mk.injEq] at h
        obtain ⟨rfl, rfl⟩ := h
        obtain ⟨h1, h2, h3, h4⟩ := ih j hr
        refine ⟨by simp; omega, h2, ?_, ?_⟩
        · simp only [List.take_succ_cons, List.drop_succ_cons, List.cons_append]
          rw [← h3]
        · intro x hx
          simp only [List.take_succ_cons, List.mem_cons] at hx
          rcases hx with rfl | hx
          · exact ha
          · exact h4 x hx

theorem findIndexById_none (id : String) (ts : List Task) :
    findIndexById id ts = none ↔ ∀ x, x ∈ ts → x.id ≠ id := by
  induction ts with
  | nil => simp [findIndexById]
  | cons a as ih =>
    unfold findIndexById
    by_cases ha : a.id = id
    · simp [ha]
    · simp only [ha, if_false, List.mem_cons, forall_eq_or_imp, not_false_eq_true, true_and]
      rw [← ih]
      cases findIndexById id as with
      | none => simp [ha]
      | some q => simp

theorem getCol_setTasks_same (cols : List (String × Column)) (k : String) (ts : List Task)
    (c : Column) (h : getCol cols k = some c) :
    getCol (setTasks cols k ts) k = some { c with tasks := ts } := by
  induction cols with
  | nil => simp [getCol] at h
  | cons p rest ih =>
    obtain ⟨k0, c0⟩ := p
    by_cases hk : k0 = k
    · simp only [getCol, hk, if_true, Option.some.injEq] at h
      simp [setTasks, getCol, hk, h]
    · simp only [getCol, hk, if_false] at h
      simp [setTasks, getCol, hk, ih h]

theorem getCol_setTasks_other (cols : List (String × Column)) (k k2 : String) (ts : List Task)
    (h : k2 ≠ k) : getCol (setTasks cols k ts) k2 = getCol cols k2 := by
  induction cols with
  | nil => simp [setTasks]
  | cons p rest ih =>
    obtain ⟨k0, c0⟩ := p
    by_cases hk : k0 = k
    · subst hk
      have : ¬ k0 = k2 := fun e => h e.symm
      simp [setTasks, getCol, this]
    · by_cases hk2 : k0 = k2
      · subst hk2
        simp [setTasks, getCol, hk]
      · simp [setTasks, getCol, hk, hk2, ih]

theorem setTasks_setTasks (cols : List (String × Column)) (k : String) (ts ts2 : List Task) :
    setTasks (setTasks cols k ts) k ts2 = setTasks cols k ts2 := by
  induction cols with
  | nil => simp [setTasks]
  | cons p rest ih =>
    obtain ⟨k0, c0⟩ := p
    by_cases hk : k0 = k
    · simp [setTasks, hk]
    · simp [setTasks, hk, ih]

theorem setTasks_self (cols : List (String × Column)) (k : String) (c : Column)
    (h : getCol cols k = some c) : setTasks cols k c.tasks = cols := by
  induction cols with
  | nil => simp [setTasks]
  | cons p rest ih =>
    obtain ⟨k0, c0⟩ := p
    by_cases hk : k0 = k
    · simp only [getCol, hk, if_true, Option.some.injEq] at h
      subst h
      simp [setTasks, hk]
    · simp only [getCol, hk, if_false] at h
      simp [setTasks, hk, ih h]

theorem readCol_of_some (cols : List (String × Column)) (k : String) (c : Column)
    (h : getCol cols k = some c) : readCol cols k = .column c := by
  simp only [readCol, h]

theorem readCol_undefined (cols : List (String × Column)) (k : String)
    (h : getCol cols k = none) (hk : k ∉ inheritedNames) : readCol cols k = .undefined := by
  simp only [readCol, h, hk, if_false]

theorem readCol_inherited (cols : List (String × Column)) (k : String)
    (h : getCol cols k = none) (hk : k ∈ inheritedNames) : readCol cols k = .inherited := by
  simp only [readCol, h, hk, if_true]

/-- When every listed id has an own column, `renderBoard` does not throw. -/
theorem renderBoardThrows_of_orderHasColumns (b : Board) (h : orderHasColumns b) :
    renderBoardThrows b = false := by
  unfold renderBoardThrows
  rw [List.any_eq_false]
  intro cId hmem
  obtain ⟨col, hcol⟩ := h cId hmem
  simp [readCol_of_some _ _ _ hcol]

/-! ## Lemmas on the helpers -/

/-- When every remaining listed id has a column and one of them holds a task with the id,
the loop of `removeTaskById` removes the first such task of the first such column and
records it. -/
theorem removeTaskByIdLoop_found (s : State) (id : String) (order : List String)
    (hcols : ∀ cId, cId ∈ order → ∃ col, getCol s.board.columns cId = some col)
    (hpres : ∃ cId, cId ∈ order ∧ ∃ col, getCol s.board.columns cId = some col ∧
      ∃ t, t ∈ col.tasks ∧ t.id = id) :
    ∃ cId col idx removed, cId ∈ order ∧ getCol s.board.columns cId = some col ∧
      findIndexById id col.tasks = some (idx, removed) ∧
      removeTaskByIdLoop s id order =
        .normal
          ({ board := { columnsOrder := s.board.columnsOrder,
                        columns := setTasks s.board.columns cId
                          (col.tasks.take idx ++ col.tasks.drop (idx + 1)) },
             lastDeleted := some { task := removed, columnId := cId, index := idx } },
           some { removed := removed, srcColumn := cId, index := idx }) := by
  induction order with
  | nil =>
    obtain ⟨cId, hmem, _⟩ := hpres
    simp at hmem
  | cons c rest ih =>
    obtain ⟨col, hcol⟩ := hcols c (List.mem_cons_self _ _)
    cases hf : findIndexById id col.tasks with
    | some q =>
      obtain ⟨idx, removed⟩ := q
      have hspec := findIndexById_spec id col.tasks idx removed hf
      refine ⟨c, col, idx, removed, List.mem_cons_self _ _, hcol, hf, ?_⟩
      simp only [removeTaskByIdLoop, hcol, hf]
      rw [splice_remove _ _ hspec.1]
    | none =>
      have hnone := (findIndexById_none id col.tasks).1 hf
      have hpres2 : ∃ cId, cId ∈ rest ∧ ∃ col, getCol s.board.columns cId = some col ∧
          ∃ t, t ∈ col.tasks ∧ t.id = id := by
        obtain ⟨cId, hmem, col2, hcol2, t, ht, hid⟩ := hpres
        rcases List.mem_cons.1 hmem with rfl | hmem
        · rw [hcol] at hcol2
          cases hcol2
          exact absurd hid (hnone t ht)
        · exact ⟨cId, hmem, col2, hcol2, t, ht, hid⟩
      obtain ⟨cId, col2, idx, removed, hmem, hcol2, hf2, hrun⟩ :=
        ih (fun x hx => hcols x (List.mem_cons_of_mem _ hx)) hpres2
      refine ⟨cId, col2, idx, removed, List.mem_cons_of_mem _ hmem, hcol2, hf2, ?_⟩
      simp only [removeTaskByIdLoop, hcol, hf]
      exact hrun

/-- When every remaining listed id has a column and none holds a task with the id, the loop
of `removeTaskById` returns `null` and changes nothing. -/
theorem removeTaskByIdLoop_absent (s : State) (id : String) (order : List String)
    (hcols : ∀ cId, cId ∈ order → ∃ col, getCol s.board.columns cId = some col)
    (habs : ∀ cId, cId ∈ order → ∀ col, getCol s.board.columns cId = some col →
      ∀ t, t ∈ col.tasks → t.id ≠ id) :
    removeTaskByIdLoop s id order = .normal (s, none) := by
  induction order with
  | nil => rfl
  | cons c rest ih =>
    obtain ⟨col, hcol⟩ := hcols c (List.mem_cons_self _ _)
    have hf : findIndexById id col.tasks = none :=
      (findIndexById_none id col.tasks).2 (habs c (List.mem_cons_self _ _) col hcol)
    simp only [removeTaskByIdLoop, hcol, hf]
    exact ih (fun x hx => hcols x (List.mem_cons_of_mem _ hx))
      (fun x hx => habs x (List.mem_cons_of_mem _ hx))

/-! ## C1: deleteTask followed by undoDelete -/

/-- C1. On a board in which every id of `columnsOrder` has a column in the mapping, deleting
a task that is present in a listed column and undoing at once gives back the board as it was:
deleteTask returns with the task (same id, all fields) in the undo slot together with its
column and index, and undoDelete then returns with a board equal to the original one, so the
task is again in its column at its index and every column and task is as before. -/
theorem delete_then_undo_restores (s : State) (id : String)
    (hcols : orderHasColumns s.board) (hpres : taskPresent s.board id) :
    ∃ s1 ld col,
      deleteTask s id = .done s1 ∧
      s1.lastDeleted = some ld ∧
      ld.task.id = id ∧
      ld.columnId ∈ s.board.columnsOrder ∧
      getCol s.board.columns ld.columnId = some col ∧
      col.tasks[ld.index]? = some ld.task ∧
      getCol s1.board.columns ld.columnId =
        some { col with tasks := col.tasks.eraseIdx ld.index } ∧
      undoDelete s1 = .done { board := s.board, lastDeleted := none } := by
  obtain ⟨cId, col, idx, removed, hmem, hcol, hf, hrun⟩ :=
    removeTaskByIdLoop_found s id s.board.columnsOrder hcols hpres
  obtain ⟨hlt, hid, hsplit, _⟩ := findIndexById_spec id col.tasks idx removed hf
  have hget : col.tasks[idx]? = some removed := by
    conv_lhs => rw [hsplit]
    rw [List.getElem?_append_right (by simp [Nat.min_eq_left (Nat.le_of_lt hlt)])]
    simp [Nat.min_eq_left (Nat.le_of_lt hlt)]
  have herase : col.tasks.eraseIdx idx = col.tasks.take idx ++ col.tasks.drop (idx + 1) :=
    List.eraseIdx_eq_take_drop_succ _ _
  have hgetNew := getCol_setTasks_same s.board.columns cId
    (col.tasks.take idx ++ col.tasks.drop (idx + 1)) col hcol
  refine ⟨{ board := { columnsOrder := s.board.columnsOrder,
                        columns := setTasks s.board.columns cId
                          (col.tasks.take idx ++ col.tasks.drop (idx + 1)) },
            lastDeleted := some { task := removed, columnId := cId, index := idx } },
    { task := removed, columnId := cId, index := idx }, col, ?_, rfl, hid, hmem,
    hcol, hget, ?_, ?_⟩
  · simp only [deleteTask, removeTaskById, hrun]
  · simp only [herase]
    exact hgetNew
  · have htake : (col.tasks.take idx ++ col.tasks.drop (idx + 1)).take idx =
        col.tasks.take idx := by
      rw [List.take_append_of_le_length (by simp [Nat.min_eq_left (Nat.le_of_lt hlt)])]
      simp [List.take_take]
    have hdrop : (col.tasks.take idx ++ col.tasks.drop (idx + 1)).drop idx =
        col.tasks.drop (idx + 1) := by
      rw [List.drop_append_of_le_length (by simp [Nat.min_eq_left (Nat.le_of_lt hlt)])]
      simp [List.drop_take]
    have hrestore : restoreTask
        { columnsOrder := s.board.columnsOrder,
          columns := setTasks s.board.columns cId
            (col.tasks.take idx ++ col.tasks.drop (idx + 1)) }
        { task := removed, columnId := cId, index := idx } = .normal s.board.columns := by
      simp only [restoreTask, readCol_of_some _ _ _ hgetNew, splice_insert, setTasks_setTasks]
      rw [htake, hdrop, ← hsplit, setTasks_self _ _ _ hcol]
    have hb : ({ columnsOrder := s.board.columnsOrder, columns := s.board.columns } : Board) =
        s.board := rfl
    simp only [undoDelete, hrestore, hb, renderBoardThrows_of_orderHasColumns _ hcols,
      Bool.false_eq_true, if_false]

/-- Witness of C1 on the board with "todo" = [A, B, C]: deleting B and undoing. -/
theorem delete_then_undo_restores_witness :
    orderHasColumns abcState.board ∧ taskPresent abcState.board "b" ∧
    ∃ s1 ld col,
      deleteTask abcState "b" = .done s1 ∧
      s1.lastDeleted = some ld ∧
      ld.task.id = "b" ∧
      ld.columnId ∈ abcState.board.columnsOrder ∧
      getCol abcState.board.columns ld.columnId = some col ∧
      col.tasks[ld.index]? = some ld.task ∧
      getCol s1.board.columns ld.columnId =
        some { col with tasks := col.tasks.eraseIdx ld.index } ∧
      undoDelete s1 = .done { board := abcState.board, lastDeleted := none } :=
  have hcols : orderHasColumns abcState.board := by decide
  have hpres : taskPresent abcState.board "b" :=
    ⟨"todo", by decide, _, rfl, sampleTask "b" "B", by decide, rfl⟩
  ⟨hcols, hpres, delete_then_undo_restores abcState "b" hcols hpres⟩

/-! ## C2: a task belongs to one column -/

/-- C2, evaluation of the code where the claim fails.  On the board with "todo" = [A, B, C]
(every id once): deleteTask(A), then moveTask(B) to "progress" at index 0, then undoDelete().
The drop handler removes B through `removeTaskById`, which overwrites `lastDeleted` with B, so
the undo puts B back into "todo" while B is also in "progress": B is in two columns and A is
gone. -/
theorem move_then_undo_duplicates_task :
    (taskIds abcState.board).Nodup ∧
    (run abcState
      [ .deleteTask "a",
        .moveTask (cardOf (sampleTask "b" "B")) "progress" 0 "2024-01-02T00:00:00.000Z",
        .undoDelete ]).board =
      { columnsOrder := ["todo", "progress", "done"]
        columns :=
          [ ("todo", { id := "todo", title := "To Do",
                       tasks := [sampleTask "b" "B", sampleTask "c" "C"] }),
            ("progress", { id := "progress", title := "In Progress",
                           tasks := [sampleTask "b" "B"] }),
            ("done", { id := "done", title := "Done", tasks := [] }) ] } ∧
    ¬ (taskIds (run abcState
      [ .deleteTask "a",
        .moveTask (cardOf (sampleTask "b" "B")) "progress" 0 "2024-01-02T00:00:00.000Z",
        .undoDelete ]).board).Nodup := by
  refine ⟨by decide, by decide, by decide⟩

/-! ## C3: identifiers under addTask, deleteTask, moveTask -/

theorem removeTaskByIdLoop_cases (s : State) (id : String) (order : List String) :
    removeTaskByIdLoop s id order = .typeError ∨
    (removeTaskByIdLoop s id order = .normal (s, none) ∧
      ∀ cId, cId ∈ order → ∃ col, getCol s.board.columns cId = some col ∧
        ∀ t, t ∈ col.tasks → t.id ≠ id) ∨
    ∃ cId col idx removed, cId ∈ order ∧ getCol s.board.columns cId = some col ∧
      findIndexById id col.tasks = some (idx, removed) ∧
      removeTaskByIdLoop s id order =
        .normal
          ({ board := { columnsOrder := s.board.columnsOrder,
                        columns := setTasks s.board.columns cId
                          (col.tasks.take idx ++ col.tasks.drop (idx + 1)) },
             lastDeleted := some { task := removed, columnId := cId, index := idx } },
           some { removed := removed, srcColumn := cId, index := idx }) := by
  induction order with
  | nil =>
    right; left
    exact ⟨rfl, fun cId h => by simp at h⟩
  | cons c rest ih =>
    cases hcol : getCol s.board.columns c with
    | none => left; simp only [removeTaskByIdLoop, hcol]
    | some col =>
      cases hf : findIndexById id col.tasks with
      | some q =>
        obtain ⟨idx, removed⟩ := q
        have hspec := findIndexById_spec id col.tasks idx removed hf
        right; right
        refine ⟨c, col, idx, removed, List.mem_cons_self _ _, hcol, hf, ?_⟩
        simp only [removeTaskByIdLoop, hcol, hf]
        rw [splice_remove _ _ hspec.1]
      | none =>
        rcases ih with h | ⟨h, hall⟩ | ⟨cId, col2, idx, removed, hmem, hcol2, hf2, hrun⟩
        · left; simp only [removeTaskByIdLoop, hcol, hf]; exact h
        · right; left
          refine ⟨by simp only [removeTaskByIdLoop, hcol, hf]; exact h, ?_⟩
          intro cId hmem
          rcases List.mem_cons.1 hmem with rfl | hmem
          · exact ⟨col, hcol, (findIndexById_none id col.tasks).1 hf⟩
          · exact hall cId hmem
        · right; right
          refine ⟨cId, col2, idx, removed, List.mem_cons_of_mem _ hmem, hcol2, hf2, ?_⟩
          simp only [removeTaskByIdLoop, hcol, hf]
          exact hrun

theorem taskIdsOf_setTasks (cols : List (String × Column)) (k : String) (ts : List Task)
    (c : Column) (h : getCol cols k = some c) :
    (↑(taskIdsOf (setTasks cols k ts)) : Multiset String) + ↑(c.tasks.map (fun t => t.id)) =
      ↑(taskIdsOf cols) + ↑(ts.map (fun t => t.id)) := by
  induction cols with
  | nil => simp [getCol] at h
  | cons p rest ih =>
    obtain ⟨k0, c0⟩ := p
    by_cases hk : k0 = k
    · simp only [getCol, hk, if_true, Option.some.injEq] at h
      subst h
      simp only [setTasks, hk, if_true, taskIdsOf, ← Multiset.coe_add]
      abel
    · simp only [getCol, hk, if_false] at h
      have ih2 := ih h
      simp only [setTasks, hk, if_false, taskIdsOf, ← Multiset.coe_add]
      rw [add_assoc, ih2, add_assoc]

theorem taskPresent_found (s : State) (id : String) (hcols : orderHasColumns s.board)
    (hpres : taskPresent s.board id) :
    ∃ cId col idx removed, getCol s.board.columns cId = some col ∧
      findIndexById id col.tasks = some (idx, removed) ∧
      removeTaskById s id =
        .normal
          ({ board := { columnsOrder := s.board.columnsOrder,
                        columns := setTasks s.board.columns cId
                          (col.tasks.take idx ++ col.tasks.drop (idx + 1)) },
             lastDeleted := some { task := removed, columnId := cId, index := idx } },
           some { removed := removed, srcColumn := cId, index := idx }) := by
  obtain ⟨cId, col, idx, removed, _, hcol, hf, hrun⟩ :=
    removeTaskByIdLoop_found s id s.board.columnsOrder hcols hpres
  exact ⟨cId, col, idx, removed, hcol, hf, hrun⟩

/-- Identifiers of a task list after taking out the element at a found index. -/
theorem ids_take_drop (id : String) (ts : List Task) (i : Nat) (t : Task)
    (h : findIndexById id ts = some (i, t)) :
    (↑((ts.take i ++ ts.drop (i + 1)).map (fun t => t.id)) : Multiset String) + {t.id} =
      ↑(ts.map (fun t => t.id)) := by
  obtain ⟨_, _, hsplit, _⟩ := findIndexById_spec id ts i t h
  conv_rhs => rw [hsplit]
  simp only [List.map_append, List.map_cons, ← Multiset.coe_add, ← Multiset.cons_coe,
    ← Multiset.singleton_add]
  abel

/-- Identifiers of a task list after inserting one element. -/
theorem ids_insert (ts : List Task) (n : Nat) (t : Task) :
    (↑((ts.take n ++ t :: ts.drop n).map (fun t => t.id)) : Multiset String) =
      ↑(ts.map (fun t => t.id)) + {t.id} := by
  conv_rhs => rw [← List.take_append_drop n ts]
  simp only [List.map_append, List.map_cons, ← Multiset.coe_add, ← Multiset.cons_coe,
    ← Multiset.singleton_add]
  abel

theorem taskIdsOf_append_task (cols : List (String × Column)) (k : String) (c : Column)
    (t : Task) (h : getCol cols k = some c) :
    (↑(taskIdsOf (setTasks cols k (c.tasks ++ [t]))) : Multiset String) =
      ↑(taskIdsOf cols) + {t.id} := by
  have h1 := taskIdsOf_setTasks cols k (c.tasks ++ [t]) c h
  simp only [List.map_append, List.map_cons, List.map_nil, ← Multiset.coe_add,
    Multiset.coe_singleton] at h1
  apply add_right_cancel (b := (↑(c.tasks.map (fun t : Task => t.id)) : Multiset String))
  rw [h1]
  abel

theorem taskIdsOf_remove_task (cols : List (String × Column)) (k : String) (c : Column)
    (id : String) (idx : Nat) (removed : Task) (h : getCol cols k = some c)
    (hf : findIndexById id c.tasks = some (idx, removed)) :
    (↑(taskIdsOf (setTasks cols k (c.tasks.take idx ++ c.tasks.drop (idx + 1)))) :
        Multiset String) + {removed.id} = ↑(taskIdsOf cols) := by
  have h1 := taskIdsOf_setTasks cols k (c.tasks.take idx ++ c.tasks.drop (idx + 1)) c h
  have h3 := ids_take_drop id c.tasks idx removed hf
  rw [← h3] at h1
  apply add_right_cancel
    (b := (↑((c.tasks.take idx ++ c.tasks.drop (idx + 1)).map (fun t : Task => t.id)) :
      Multiset String))
  rw [← h1]
  abel

theorem taskIdsOf_insert_task (cols : List (String × Column)) (k : String) (c : Column)
    (n : Nat) (t : Task) (h : getCol cols k = some c) :
    (↑(taskIdsOf (setTasks cols k (c.tasks.take n ++ t :: c.tasks.drop n))) :
        Multiset String) = ↑(taskIdsOf cols) + {t.id} := by
  have h1 := taskIdsOf_setTasks cols k (c.tasks.take n ++ t :: c.tasks.drop n) c h
  rw [ids_insert] at h1
  apply add_right_cancel (b := (↑(c.tasks.map (fun t : Task => t.id)) : Multiset String))
  rw [h1]
  abel

theorem addTask_step (s : State) (columnId title description priority due uid now : String) :
    (↑(taskIds (addTask s columnId title description priority due uid now).state.board) :
        Multiset String) =
      ↑(taskIds s.board) +
        ↑(addedBy s (.addTask columnId title description priority due uid now)) := by
  simp only [addedBy]
  unfold addTask saveTask
  by_cases ht : jsTrim title = ""
  · simp [ht, Outcome.state]
  · simp only [ht, if_false, Bool.false_eq_true]
    cases hc : getCol s.board.columns
        (keyOf (if columnId ≠ "" then some columnId else s.board.columnsOrder.head?)) with
    | none => simp [Outcome.state]
    | some c =>
      simp only [Outcome.state, taskIds, Multiset.coe_singleton]
      exact taskIdsOf_append_task _ _ _ _ hc

theorem deleteTask_step (s : State) (id : String) :
    (↑(taskIds (deleteTask s id).state.board) : Multiset String) +
        ↑(removedBy s (.deleteTask id)) = ↑(taskIds s.board) := by
  simp only [removedBy]
  unfold deleteTask removeTaskById
  rcases removeTaskByIdLoop_cases s id s.board.columnsOrder with
    h | ⟨h, _⟩ | ⟨cId, col, idx, removed, _, hcol, hf, hrun⟩
  · simp [h, Outcome.state]
  · simp [h, Outcome.state]
  · simp only [hrun, Outcome.state, taskIds, Multiset.coe_singleton]
    exact taskIdsOf_remove_task _ _ _ id _ _ hcol hf

theorem moveTask_step (s : State) (el : DragEl) (destId : String) (destIndex : Nat)
    (now : String) (hpres : taskPresent s.board el.dataId)
    (hdest : ∃ col, getCol s.board.columns destId = some col) :
    (↑(taskIds (moveTask s (some el) destId destIndex now).state.board) : Multiset String) =
      ↑(taskIds s.board) := by
  rcases removeTaskByIdLoop_cases s el.dataId s.board.columnsOrder with
    h | ⟨_, hall⟩ | ⟨cId, col, idx, removed, _, hcol, hf, hrun⟩
  · simp [moveTask, removeTaskById, h, Outcome.state]
  · obtain ⟨cId, hmem, col, hcol, t, ht, hid⟩ := hpres
    obtain ⟨col2, hcol2, hno⟩ := hall cId hmem
    rw [hcol] at hcol2
    cases hcol2
    exact absurd hid (hno t ht)
  · have hdest2 : ∃ dcol, getCol (setTasks s.board.columns cId
        (col.tasks.take idx ++ col.tasks.drop (idx + 1))) destId = some dcol := by
      obtain ⟨d, hd⟩ := hdest
      by_cases hk : destId = cId
      · subst hk
        exact ⟨_, getCol_setTasks_same _ _ _ _ hd⟩
      · exact ⟨d, by rw [getCol_setTasks_other _ _ _ _ hk]; exact hd⟩
    obtain ⟨dcol, hd⟩ := hdest2
    simp only [moveTask, removeTaskById, hrun, hd, Outcome.state, splice_insert, taskIds]
    rw [taskIdsOf_insert_task _ _ _ _ _ hd]
    exact taskIdsOf_remove_task _ _ _ el.dataId _ _ hcol hf

/-- Along a sequence of addTask, deleteTask and moveTask whose moves resolve, the identifiers
on the board together with the removed ones are the initial ones together with the added
ones. -/
theorem task_ids_balance (s : State) (ops : List Op)
    (hops : ∀ op, op ∈ ops → isTaskOp op = true) (hmoves : movesResolve s ops) :
    (↑(taskIds (run s ops).board) : Multiset String) + ↑(removedIds s ops) =
      ↑(taskIds s.board) + ↑(addedIds s ops) := by
  induction ops generalizing s with
  | nil => simp [run, removedIds, addedIds]
  | cons op rest ih =>
    have hrest : ∀ o, o ∈ rest → isTaskOp o = true :=
      fun o ho => hops o (List.mem_cons_of_mem _ ho)
    have hop := hops op (List.mem_cons_self _ _)
    obtain ⟨hmove, hmoves2⟩ := hmoves
    have hstep : (↑(taskIds (applyOp s op).state.board) : Multiset String) +
        ↑(removedBy s op) = ↑(taskIds s.board) + ↑(addedBy s op) := by
      cases op with
      | addTask columnId title description priority due uid now =>
        have h := addTask_step s columnId title description priority due uid now
        simp only [applyOp, removedBy, Multiset.coe_nil, add_zero]
        exact h
      | deleteTask id =>
        have h := deleteTask_step s id
        simp only [applyOp, addedBy, Multiset.coe_nil, add_zero]
        exact h
      | moveTask el destId destIndex now =>
        have h := moveTask_step s el destId destIndex now hmove.1 hmove.2
        simp only [applyOp, addedBy, removedBy, Multiset.coe_nil, add_zero]
        exact h
      | editTask _ _ _ _ _ _ => simp [isTaskOp] at hop
      | undoDelete => simp [isTaskOp] at hop
      | removeColumn _ => simp [isTaskOp] at hop
    have hind := ih (applyOp s op).state hrest hmoves2
    simp only [run, removedIds, addedIds, ← Multiset.coe_add]
    calc (↑(taskIds (run (applyOp s op).state rest).board) : Multiset String) +
          (↑(removedBy s op) + ↑(removedIds (applyOp s op).state rest))
        = (↑(taskIds (run (applyOp s op).state rest).board) +
            ↑(removedIds (applyOp s op).state rest)) + ↑(removedBy s op) := by abel
      _ = (↑(taskIds (applyOp s op).state.board) + ↑(removedBy s op)) +
            ↑(addedIds (applyOp s op).state rest) := by rw [hind]; abel
      _ = ↑(taskIds s.board) + (↑(addedBy s op) + ↑(addedIds (applyOp s op).state rest)) := by
          rw [hstep]; abel

/-- C3 as stated fails: on the default board one moveTask of a card whose id is in no column
puts a task rebuilt from the card into the destination, so the board holds an identifier that
was neither initially present nor added by addTask. -/
theorem move_of_unknown_card_adds_id :
    (∀ op, op ∈ [Op.moveTask (cardOf (sampleTask "ghost" "Ghost")) "todo" 0 "now"] →
      isTaskOp op = true) ∧
    taskIds (run initialState
      [Op.moveTask (cardOf (sampleTask "ghost" "Ghost")) "todo" 0 "now"]).board = ["ghost"] ∧
    taskIds initialState.board = [] ∧
    addedIds initialState [Op.moveTask (cardOf (sampleTask "ghost" "Ghost")) "todo" 0 "now"]
      = [] ∧
    removedIds initialState [Op.moveTask (cardOf (sampleTask "ghost" "Ghost")) "todo" 0 "now"]
      = [] ∧
    (↑(taskIds (run initialState
      [Op.moveTask (cardOf (sampleTask "ghost" "Ghost")) "todo" 0 "now"]).board) :
        Multiset String) ≠
      ↑(taskIds initialState.board) +
        ↑(addedIds initialState
          [Op.moveTask (cardOf (sampleTask "ghost" "Ghost")) "todo" 0 "now"]) -
        ↑(removedIds initialState
          [Op.moveTask (cardOf (sampleTask "ghost" "Ghost")) "todo" 0 "now"]) := by
  have h1 : taskIds (run initialState
      [Op.moveTask (cardOf (sampleTask "ghost" "Ghost")) "todo" 0 "now"]).board = ["ghost"] := by
    decide
  have h2 : taskIds initialState.board = [] := by decide
  have h3 : addedIds initialState
      [Op.moveTask (cardOf (sampleTask "ghost" "Ghost")) "todo" 0 "now"] = [] := by decide
  have h4 : removedIds initialState
      [Op.moveTask (cardOf (sampleTask "ghost" "Ghost")) "todo" 0 "now"] = [] := by decide
  refine ⟨by decide, h1, h2, h3, h4, ?_⟩
  rw [h1, h2, h3, h4]
  simp

/-- C3, amended.  For every board and every finite sequence of addTask, deleteTask and
moveTask in which each moveTask names, when it runs, a task present in a listed column and a
destination column that exists, the multiset of task identifiers on the board afterwards is
the initial multiset plus the identifiers added by addTask minus those removed by deleteTask;
in particular such a moveTask leaves the multiset of task identifiers unchanged. -/
theorem task_ids_multiset (s : State) (ops : List Op)
    (hops : ∀ op, op ∈ ops → isTaskOp op = true) (hmoves : movesResolve s ops) :
    (↑(taskIds (run s ops).board) : Multiset String) =
        ↑(taskIds s.board) + ↑(addedIds s ops) - ↑(removedIds s ops) ∧
    ∀ (el : DragEl) (destId : String) (destIndex : Nat) (now : String),
      taskPresent s.board el.dataId → (∃ col, getCol s.board.columns destId = some col) →
      (↑(taskIds (moveTask s (some el) destId destIndex now).state.board) : Multiset String) =
        ↑(taskIds s.board) :=
  ⟨eq_tsub_of_add_eq (task_ids_balance s ops hops hmoves),
   fun el destId destIndex now hp hd => moveTask_step s el destId destIndex now hp hd⟩

/-- Witness of C3 on `abcState` with the operations of `sampleOps`. -/
theorem task_ids_multiset_witness :
    (∀ op, op ∈ sampleOps → isTaskOp op = true) ∧
    movesResolve abcState sampleOps ∧
    ((↑(taskIds (run abcState sampleOps).board) : Multiset String) =
        ↑(taskIds abcState.board) + ↑(addedIds abcState sampleOps) -
          ↑(removedIds abcState sampleOps) ∧
     ∀ (el : DragEl) (destId : String) (destIndex : Nat) (now : String),
      taskPresent abcState.board el.dataId →
      (∃ col, getCol abcState.board.columns destId = some col) →
      (↑(taskIds (moveTask abcState (some el) destId destIndex now).state.board) :
          Multiset String) = ↑(taskIds abcState.board)) :=
  have hops : ∀ op, op ∈ sampleOps → isTaskOp op = true := by decide
  have hmoves : movesResolve abcState sampleOps :=
    ⟨trivial, trivial,
      ⟨⟨"todo", by decide, _, rfl, sampleTask "b" "B", by decide, rfl⟩, ⟨_, rfl⟩⟩, trivial⟩
  ⟨hops, hmoves, task_ids_multiset abcState sampleOps hops hmoves⟩

/-! ## C4: the columnOrder/mapping invariant -/

theorem keys_setTasks (cols : List (String × Column)) (k : String) (ts : List Task) :
    (setTasks cols k ts).map Prod.fst = cols.map Prod.fst := by
  induction cols with
  | nil => rfl
  | cons p rest ih =>
    obtain ⟨k0, c0⟩ := p
    by_cases hk : k0 = k
    · simp [setTasks, hk]
    · simp [setTasks, hk, ih]

theorem mem_keys_setCol (cols : List (String × Column)) (k k2 : String) (c : Column) :
    k2 ∈ (setCol cols k c).map Prod.fst ↔ k2 = k ∨ k2 ∈ cols.map Prod.fst := by
  induction cols with
  | nil => simp [setCol]
  | cons p rest ih =>
    obtain ⟨k0, c0⟩ := p
    by_cases hk : k0 = k
    · subst hk
      simp [setCol]
    · simp only [setCol, hk, if_false, List.map_cons, List.mem_cons, ih]
      tauto

theorem mem_keys_deleteCol (cols : List (String × Column)) (k k2 : String) :
    k2 ∈ (deleteCol cols k).map Prod.fst ↔ k2 ≠ k ∧ k2 ∈ cols.map Prod.fst := by
  simp only [deleteCol, List.mem_map, List.mem_filter, decide_eq_true_eq]
  constructor
  · rintro ⟨p, ⟨hp, hne⟩, rfl⟩
    exact ⟨hne, p, hp, rfl⟩
  · rintro ⟨hne, p, hp, rfl⟩
    exact ⟨p, ⟨hp, hne⟩, rfl⟩

theorem getCol_some_iff_mem_keys (cols : List (String × Column)) (k : String) :
    (∃ c, getCol cols k = some c) ↔ k ∈ cols.map Prod.fst := by
  induction cols with
  | nil => simp [getCol]
  | cons p rest ih =>
    obtain ⟨k0, c0⟩ := p
    by_cases hk : k0 = k
    · simp [getCol, hk]
    · have hk2 : ¬ k = k0 := fun e => hk e.symm
      simp [getCol, hk, hk2, ih]

/-- The invariant in terms of the key list of the mapping. -/
theorem boardInv_iff (b : Board) :
    boardInv b ↔ ∀ k, k ∈ b.columnsOrder ↔ k ∈ b.columns.map Prod.fst := by
  unfold boardInv orderHasColumns columnsInOrder
  constructor
  · rintro ⟨h1, h2⟩ k
    constructor
    · intro hk
      exact (getCol_some_iff_mem_keys _ _).1 (h1 k hk)
    · intro hk
      obtain ⟨p, hp, rfl⟩ := List.mem_map.1 hk
      exact h2 p hp
  · intro h
    constructor
    · intro k hk
      exact (getCol_some_iff_mem_keys _ _).2 ((h k).1 hk)
    · intro p hp
      exact (h p.1).2 (List.mem_map.2 ⟨p, hp, rfl⟩)

/-- A board with the same column order and the same keys satisfies the invariant too. -/
theorem boardInv_of_same_keys (b b2 : Board) (h : boardInv b)
    (ho : b2.columnsOrder = b.columnsOrder)
    (hk : b2.columns.map Prod.fst = b.columns.map Prod.fst) : boardInv b2 := by
  rw [boardInv_iff] at h ⊢
  rw [ho, hk]
  exact h

theorem removeTaskById_same_keys (s s1 : State) (id : String) (r : Option RemovedInfo)
    (h : removeTaskById s id = .normal (s1, r)) :
    s1.board.columnsOrder = s.board.columnsOrder ∧
      s1.board.columns.map Prod.fst = s.board.columns.map Prod.fst := by
  unfold removeTaskById at h
  rcases removeTaskByIdLoop_cases s id s.board.columnsOrder with
    h2 | ⟨h2, _⟩ | ⟨cId, col, idx, removed, _, _, _, h2⟩
  · rw [h2] at h; cases h
  · rw [h2] at h; cases h; exact ⟨rfl, rfl⟩
  · rw [h2] at h; cases h; exact ⟨rfl, keys_setTasks _ _ _⟩

theorem deleteTask_same_keys (s : State) (id : String) :
    (deleteTask s id).state.board.columnsOrder = s.board.columnsOrder ∧
      (deleteTask s id).state.board.columns.map Prod.fst = s.board.columns.map Prod.fst := by
  cases h : removeTaskById s id with
  | typeError => simp [deleteTask, h, Outcome.state]
  | normal v =>
    obtain ⟨s1, r⟩ := v
    simp only [deleteTask, h, Outcome.state]
    exact removeTaskById_same_keys s s1 id r h

theorem moveTask_same_keys (s : State) (dragItem : Option DragEl) (destId : String)
    (insertIndex : Nat) (now : String) :
    (moveTask s dragItem destId insertIndex now).state.board.columnsOrder =
        s.board.columnsOrder ∧
      (moveTask s dragItem destId insertIndex now).state.board.columns.map Prod.fst =
        s.board.columns.map Prod.fst := by
  cases dragItem with
  | none => simp [moveTask, Outcome.state]
  | some el =>
    cases h : removeTaskById s el.dataId with
    | typeError => simp [moveTask, h, Outcome.state]
    | normal v =>
      obtain ⟨s1, r⟩ := v
      have hk := removeTaskById_same_keys s s1 el.dataId r h
      simp only [moveTask, h]
      split
      · exact hk
      · split
        · exact hk
        · simp only [Outcome.state, keys_setTasks]
          exact hk

/-- The restore step of the undo handler keeps the keys of the mapping. -/
theorem restoreTask_keys (b : Board) (ld : LastDeleted) (cols : List (String × Column))
    (h : restoreTask b ld = .normal cols) : cols.map Prod.fst = b.columns.map Prod.fst := by
  unfold restoreTask at h
  cases hr : readCol b.columns ld.columnId with
  | inherited => simp [hr] at h
  | column col =>
    simp only [hr, Completion.normal.injEq] at h
    rw [← h]
    exact keys_setTasks _ _ _
  | undefined =>
    cases hf : getCol b.columns (keyOf b.columnsOrder.head?) with
    | none => simp [hr, hf] at h
    | some fcol =>
      simp only [hr, hf, Completion.normal.injEq] at h
      rw [← h]
      exact keys_setTasks _ _ _

theorem undoDelete_same_keys (s : State) :
    (undoDelete s).state.board.columnsOrder = s.board.columnsOrder ∧
      (undoDelete s).state.board.columns.map Prod.fst = s.board.columns.map Prod.fst := by
  cases hl : s.lastDeleted with
  | none => simp [undoDelete, hl, Outcome.state]
  | some ld =>
    cases hr : restoreTask s.board ld with
    | typeError => simp [undoDelete, hl, hr, Outcome.state]
    | normal cols =>
      have hk := restoreTask_keys s.board ld cols hr
      cases hrender : renderBoardThrows
          { columnsOrder := s.board.columnsOrder, columns := cols } with
      | true =>
        simp only [undoDelete, hl, hr, hrender, if_true, Outcome.state]
        exact ⟨trivial, hk⟩
      | false =>
        simp only [undoDelete, hl, hr, hrender, Bool.false_eq_true, if_false, Outcome.state]
        exact ⟨trivial, hk⟩

theorem saveTask_same_keys (s : State) (editingId : Option String) (titleInput descInput
    priorityInput dueInput columnInput : String) (uid now : String) :
    (saveTask s editingId titleInput descInput priorityInput dueInput columnInput uid
        now).state.board.columnsOrder = s.board.columnsOrder ∧
      (saveTask s editingId titleInput descInput priorityInput dueInput columnInput uid
        now).state.board.columns.map Prod.fst = s.board.columns.map Prod.fst := by
  unfold saveTask
  simp only
  repeat' split
  all_goals simp [Outcome.state, keys_setTasks]

theorem indexOf_of_mem (xs : List String) (x : String) (h : x ∈ xs) :
    ∃ i : Nat, indexOf xs x = (i : Int) ∧ i < xs.length ∧
      xs.take i ++ xs.drop (i + 1) = xs.erase x := by
  induction xs with
  | nil => simp at h
  | cons y ys ih =>
    by_cases hy : y = x
    · subst hy
      exact ⟨0, by simp [indexOf], by simp, by simp⟩
    · have hmem : x ∈ ys := by
        rcases List.mem_cons.1 h with e | e
        · exact absurd e.symm hy
        · exact e
      obtain ⟨i, hi, hlt, he⟩ := ih hmem
      refine ⟨i + 1, ?_, by simp; omega, ?_⟩
      · unfold indexOf
        simp only [hy, if_false, hi]
        have : ¬ ((i : Int) < 0) := by omega
        simp [this]
      · have hne : ¬ (y == x) = true := by simpa using hy
        simp only [List.take_succ_cons, List.drop_succ_cons, List.cons_append, he]
        rw [List.erase_cons_tail hne]

/-- What `columnsOrder.splice(columnsOrder.indexOf(colId), 1)` leaves for a listed id. -/
theorem splice_indexOf_of_mem (xs : List String) (x : String) (h : x ∈ xs) :
    (splice xs (indexOf xs x) 1 []).1 = xs.erase x := by
  obtain ⟨i, hi, hlt, he⟩ := indexOf_of_mem xs x h
  rw [hi, splice_remove _ _ hlt, he]

theorem erase_eq_filter_of_count_one (xs : List String) (x : String)
    (h : xs.count x = 1) : xs.erase x = xs.filter (fun y => y ≠ x) := by
  induction xs with
  | nil => simp at h
  | cons y ys ih =>
    by_cases hy : y = x
    · subst hy
      have h0 : ys.count y = 0 := by simpa using h
      have hnot : y ∉ ys := List.count_eq_zero.1 h0
      have hall : ∀ z, z ∈ ys → decide (z ≠ y) = true := by
        intro z hz
        simp only [ne_eq, decide_not, Bool.not_eq_true', decide_eq_false_iff_not]
        rintro rfl
        exact hnot hz
      have hf : ys.filter (fun z => decide (z ≠ y)) = ys := List.filter_eq_self.2 hall
      rw [List.erase_cons_head, List.filter_cons]
      simp only [ne_eq, not_true_eq_false, decide_False, Bool.false_eq_true, if_false]
      exact hf.symm
    · have hne : ¬ (y == x) = true := by simpa using hy
      have hc : ys.count x = 1 := by
        rw [List.count_cons] at h
        simpa [hy] using h
      rw [List.erase_cons_tail hne, ih hc]
      simp [hy]

theorem getCol_deleteCol (cols : List (String × Column)) (k k2 : String) :
    getCol (deleteCol cols k) k2 = if k2 = k then none else getCol cols k2 := by
  induction cols with
  | nil => simp [deleteCol, getCol]
  | cons p rest ih =>
    obtain ⟨k0, c0⟩ := p
    unfold deleteCol at ih ⊢
    by_cases hk : k0 = k
    · subst hk
      by_cases hk2 : k2 = k0
      · subst hk2
        simpa using ih
      · have hk3 : ¬ k0 = k2 := fun e => hk2 e.symm
        simp only [List.filter_cons, ne_eq, not_true_eq_false, decide_False,
          Bool.false_eq_true, if_false, ih, hk2, getCol, hk3]
    · by_cases hk2 : k0 = k2
      · subst hk2
        simp [List.filter_cons, hk, getCol]
      · simp only [List.filter_cons, ne_eq, hk, not_false_eq_true, decide_True, if_true,
          getCol, hk2, if_false, ih]

/-- When the removed id has an own column and the target, if any, has one, the push of the
removed column's tasks does not throw and keeps the keys of the mapping. -/
theorem pushTasksToTarget_keys (cols : List (String × Column)) (target : Option String)
    (colId : String) (col : Column) (hcol : getCol cols colId = some col)
    (htarget : ∀ tgt, target = some tgt → ∃ tcol, getCol cols tgt = some tcol) :
    ∃ cols2, pushTasksToTarget cols target colId = .normal cols2 ∧
      cols2.map Prod.fst = cols.map Prod.fst := by
  unfold pushTasksToTarget
  cases target with
  | none => exact ⟨cols, rfl, rfl⟩
  | some tgt =>
    obtain ⟨tcol, htcol⟩ := htarget tgt rfl
    by_cases ht : tgt = ""
    · simp only [ht, if_true]
      exact ⟨cols, rfl, rfl⟩
    · by_cases hlen : col.tasks.length ≠ 0
      · simp only [ht, if_false, readCol_of_some _ _ _ hcol, hlen, ne_eq, not_false_eq_true,
          if_true, htcol]
        exact ⟨_, rfl, keys_setTasks _ _ _⟩
      · simp only [ht, if_false, readCol_of_some _ _ _ hcol, hlen, if_false]
        exact ⟨cols, rfl, rfl⟩

theorem mem_erase_of_count_one (xs : List String) (x k : String) (h : xs.count x = 1) :
    k ∈ xs.erase x ↔ k ≠ x ∧ k ∈ xs := by
  rw [erase_eq_filter_of_count_one xs x h]
  simp only [List.mem_filter, decide_eq_true_eq]
  tauto

theorem removeColumn_keeps_inv (s : State) (colId : String) (confirmed : Bool)
    (hinv : boardInv s.board) (hcount : s.board.columnsOrder.count colId = 1) :
    boardInv (removeColumn s colId confirmed).state.board := by
  cases confirmed with
  | false => simpa [removeColumn, Outcome.state] using hinv
  | true =>
    have hmem : colId ∈ s.board.columnsOrder :=
      List.count_pos_iff.1 (by omega)
    have horder := splice_indexOf_of_mem s.board.columnsOrder colId hmem
    have hinv2 := (boardInv_iff s.board).1 hinv
    have htarget : ∀ tgt, (s.board.columnsOrder.erase colId).head? = some tgt →
        ∃ tcol, getCol s.board.columns tgt = some tcol := by
      intro tgt htgt
      have h1 : tgt ∈ s.board.columnsOrder.erase colId := List.mem_of_mem_head? htgt
      exact (getCol_some_iff_mem_keys _ _).2 ((hinv2 tgt).1 (List.mem_of_mem_erase h1))
    obtain ⟨col, hcol⟩ := hinv.1 colId hmem
    obtain ⟨cols2, hpush, hkeys⟩ :=
      pushTasksToTarget_keys s.board.columns _ colId col hcol htarget
    simp only [removeColumn, Bool.not_true, Bool.false_eq_true, if_false, horder, hpush,
      Outcome.state]
    rw [boardInv_iff]
    intro k
    simp only [mem_keys_deleteCol, hkeys, mem_erase_of_count_one _ _ _ hcount, hinv2 k]

theorem addColumn_keeps_inv (s : State) (title : Option String) (uid : String)
    (hinv : boardInv s.board) : boardInv (addColumn s title uid).state.board := by
  unfold addColumn
  cases title with
  | none => exact hinv
  | some t =>
    by_cases ht : t = ""
    · simpa [ht, Outcome.state] using hinv
    · simp only [ht, if_false, Outcome.state]
      have hinv2 := (boardInv_iff s.board).1 hinv
      rw [boardInv_iff]
      intro k
      simp only [List.mem_append, List.mem_singleton, mem_keys_setCol, hinv2 k]
      tauto

theorem renameColumn_keeps_inv (s : State) (colId : String) (answer : Option String)
    (hinv : boardInv s.board) : boardInv (renameColumn s colId answer).state.board := by
  unfold renameColumn
  cases hc : getCol s.board.columns colId with
  | none =>
    by_cases hin : colId ∈ inheritedNames
    · rw [readCol_inherited _ _ hc hin]
      exact hinv
    · rw [readCol_undefined _ _ hc hin]
      exact hinv
  | some col =>
    rw [readCol_of_some _ _ _ hc]
    cases answer with
    | none => exact hinv
    | some newName =>
      by_cases ht : jsTrim newName = ""
      · simpa [ht, Outcome.state] using hinv
      · simp only [ne_eq, ht, not_false_eq_true, if_true, Outcome.state]
        have hinv2 := (boardInv_iff s.board).1 hinv
        have hk : colId ∈ s.board.columns.map Prod.fst :=
          (getCol_some_iff_mem_keys _ _).1 ⟨col, hc⟩
        rw [boardInv_iff]
        intro k
        simp only [mem_keys_setCol, hinv2 k]
        constructor
        · intro h; exact Or.inr h
        · rintro (rfl | h)
          · exact hk
          · exact h

theorem mergeLoop_keeps_inv (pcols : List (String × Column)) (b : Board)
    (adopted ids : List String) (hinv : boardInv b)
    (hids : ∀ cid, cid ∈ ids → ∃ pc, getCol pcols cid = some pc) :
    boardInv (mergeLoop pcols b adopted ids).1 := by
  induction ids generalizing b adopted with
  | nil => exact hinv
  | cons cid rest ih =>
    have hrest : ∀ c, c ∈ rest → ∃ pc, getCol pcols c = some pc :=
      fun c hc => hids c (List.mem_cons_of_mem _ hc)
    obtain ⟨pc, hpc⟩ := hids cid (List.mem_cons_self _ _)
    unfold mergeLoop
    cases hc : getCol b.columns cid with
    | none =>
      by_cases hin : cid ∈ inheritedNames
      · rw [readCol_inherited _ _ hc hin]
        exact hinv
      · rw [readCol_undefined _ _ hc hin]
        simp only [hpc]
        apply ih _ _ _ hrest
        have hinv2 := (boardInv_iff b).1 hinv
        rw [boardInv_iff]
        intro k
        simp only [List.mem_append, List.mem_singleton, mem_keys_setCol, hinv2 k]
        tauto
    | some col =>
      rw [readCol_of_some _ _ _ hc]
      simp only [readCol_of_some _ _ _ hpc]
      split
      · exact ih _ _ (boardInv_of_same_keys b _ hinv rfl (keys_setTasks _ _ _)) hrest
      · exact ih _ _ (boardInv_of_same_keys b _ hinv rfl (keys_setTasks _ _ _)) hrest

/-- C4 as stated fails for importSnapshot: `danglingSnapshot` passes the validation (the
handler does not reject it), and on the default board, which satisfies the invariant, both the
replace and the merge import end with "extra" in `columnsOrder` and no column for it. -/
theorem import_breaks_invariant :
    boardInv initialState.board ∧
    importSnapshot initialState danglingSnapshot true =
      .done { board := { columnsOrder := ["todo", "extra"],
                         columns := [("todo", { id := "todo", title := "To Do", tasks := [] })] },
              lastDeleted := none } ∧
    ¬ boardInv (importSnapshot initialState danglingSnapshot true).state.board ∧
    importSnapshot initialState danglingSnapshot false =
      .done { board := { columnsOrder := ["todo", "progress", "done", "extra"],
                         columns := defaultBoard.columns },
              lastDeleted := none } ∧
    ¬ boardInv (importSnapshot initialState danglingSnapshot false).state.board := by
  refine ⟨by decide, by decide, by decide, by decide, by decide⟩

/-- C4, amended.  The invariant "every id in columnOrder has an entry in the column mapping
and every key of the mapping is in columnOrder" holds for the default three-column board, and
from a board that satisfies it, it holds again after addColumn, renameColumn, addTask and
editTask (the save handler), deleteTask, undoDelete and moveTask, after removeColumn of an id
that occurs exactly once in columnOrder, after importSnapshot in replace mode when the snapshot
itself satisfies the invariant, and after importSnapshot in merge mode when every id of the
snapshot's column order has a column in the snapshot's mapping. -/
theorem board_invariant_preserved (s : State) (hinv : boardInv s.board) :
    boardInv defaultBoard ∧
    (∀ title uid, boardInv (addColumn s title uid).state.board) ∧
    (∀ colId answer, boardInv (renameColumn s colId answer).state.board) ∧
    (∀ colId confirmed, s.board.columnsOrder.count colId = 1 →
      boardInv (removeColumn s colId confirmed).state.board) ∧
    (∀ editingId title description priority due column uid now,
      boardInv (saveTask s editingId title description priority due column uid
        now).state.board) ∧
    (∀ id, boardInv (deleteTask s id).state.board) ∧
    boardInv (undoDelete s).state.board ∧
    (∀ dragItem destId destIndex now,
      boardInv (moveTask s dragItem destId destIndex now).state.board) ∧
    (∀ snap : Snapshot,
      (∀ order cols, snap.columnsOrder = some order → snap.columns = some cols →
        boardInv { columnsOrder := order, columns := cols }) →
      boardInv (importSnapshot s snap true).state.board) ∧
    (∀ snap : Snapshot,
      (∀ order cols, snap.columnsOrder = some order → snap.columns = some cols →
        orderHasColumns { columnsOrder := order, columns := cols }) →
      boardInv (importSnapshot s snap false).state.board) := by
  refine ⟨by decide, ?_, ?_, ?_, ?_, ?_, ?_, ?_, ?_, ?_⟩
  · exact fun title uid => addColumn_keeps_inv s title uid hinv
  · exact fun colId answer => renameColumn_keeps_inv s colId answer hinv
  · exact fun colId confirmed hc => removeColumn_keeps_inv s colId confirmed hinv hc
  · intro editingId title description priority due column uid now
    have h := saveTask_same_keys s editingId title description priority due column uid now
    exact boardInv_of_same_keys s.board _ hinv h.1 h.2
  · intro id
    have h := deleteTask_same_keys s id
    exact boardInv_of_same_keys s.board _ hinv h.1 h.2
  · have h := undoDelete_same_keys s
    exact boardInv_of_same_keys s.board _ hinv h.1 h.2
  · intro dragItem destId destIndex now
    have h := moveTask_same_keys s dragItem destId destIndex now
    exact boardInv_of_same_keys s.board _ hinv h.1 h.2
  · intro snap hsnap
    obtain ⟨po, pc⟩ := snap
    cases po with
    | none => exact hinv
    | some order =>
      cases pc with
      | none => exact hinv
      | some cols => exact hsnap order cols rfl rfl
  · intro snap hsnap
    obtain ⟨po, pc⟩ := snap
    cases po with
    | none => exact hinv
    | some order =>
      cases pc with
      | none => exact hinv
      | some cols =>
        have hm := mergeLoop_keeps_inv cols s.board [] order hinv (hsnap order cols rfl rfl)
        simp only [importSnapshot, Bool.false_eq_true, if_false]
        cases hr : mergeLoop cols s.board [] order with
        | mk b threw =>
          rw [hr] at hm
          cases threw <;> simpa [Outcome.state] using hm

/-- Witness of C4 on the default board with an empty undo slot. -/
theorem board_invariant_preserved_witness :
    boardInv initialState.board ∧
    boardInv (removeColumn initialState "progress" true).state.board ∧
    boardInv (importSnapshot initialState
      { columnsOrder := some ["extra"],
        columns := some [("extra", { id := "extra", title := "Extra", tasks := [] })] }
      false).state.board :=
  have hinv : boardInv initialState.board := by decide
  have h := board_invariant_preserved initialState hinv
  ⟨hinv, h.2.2.2.1 "progress" true (by decide),
    h.2.2.2.2.2.2.2.2.2 _ (by
      intro order cols ho hc
      cases ho
      cases hc
      decide)⟩

/-! ## C5: removeColumn of a listed column -/

/-- With a non-empty target id that has a column, the push gives the target its old tasks
followed by the removed column's tasks and leaves every other key as it was. -/
theorem pushTasksToTarget_spec (cols : List (String × Column)) (tgt colId : String)
    (col tcol : Column) (hcol : getCol cols colId = some col)
    (htcol : getCol cols tgt = some tcol) (htgt : tgt ≠ "") :
    ∃ cols2, pushTasksToTarget cols (some tgt) colId = .normal cols2 ∧
      getCol cols2 tgt = some { tcol with tasks := tcol.tasks ++ col.tasks } ∧
      ∀ k, k ≠ tgt → getCol cols2 k = getCol cols k := by
  unfold pushTasksToTarget
  by_cases hlen : col.tasks.length ≠ 0
  · refine ⟨setTasks cols tgt (tcol.tasks ++ col.tasks), ?_, ?_, ?_⟩
    · simp only [readCol_of_some _ _ _ hcol, htcol, htgt, hlen, ne_eq, not_false_eq_true,
        if_true, if_false]
    · exact getCol_setTasks_same _ _ _ _ htcol
    · intro k hk
      exact getCol_setTasks_other _ _ _ _ hk
  · have hnil : col.tasks = [] := by
      have : col.tasks.length = 0 := by omega
      exact List.length_eq_zero.1 this
    refine ⟨cols, ?_, ?_, ?_⟩
    · simp only [readCol_of_some _ _ _ hcol, htgt, hlen, if_false]
    · simp [htcol, hnil]
    · intro k _
      rfl

/-- C5 as stated fails on two boards that satisfy the invariant.  On `emptyIdState` the column
that is first after removing "x" has the id "", which the handler's `if (target && ...)` takes
for a missing target: the task of "x" is dropped although a column remains.  On
`repeatedIdState` the id "a" is listed twice: after removeColumn("a") it is still in
`columnsOrder` while its column is gone. -/
theorem removeColumn_counterexamples :
    (boardInv emptyIdState.board ∧ "x" ∈ emptyIdState.board.columnsOrder ∧
      getCol emptyIdState.board.columns "x" =
        some { id := "x", title := "X", tasks := [sampleTask "t" "T"] } ∧
      removeColumn emptyIdState "x" true =
        .done { board := { columnsOrder := [""],
                           columns := [("", { id := "", title := "Unnamed", tasks := [] })] },
                lastDeleted := none }) ∧
    (boardInv repeatedIdState.board ∧ "a" ∈ repeatedIdState.board.columnsOrder ∧
      removeColumn repeatedIdState "a" true =
        .done { board := { columnsOrder := ["a"], columns := [] }, lastDeleted := none } ∧
      "a" ∈ (removeColumn repeatedIdState "a" true).state.board.columnsOrder) := by
  refine ⟨⟨by decide, by decide, by decide, by decide⟩, by decide, by decide, by decide,
    by decide⟩

/-- C5, amended.  On a board that satisfies the columnOrder/mapping invariant, for a columnId
that occurs exactly once in columnOrder, the confirmed removeColumn returns; columnOrder
becomes the old one without columnId, the other ids in their old relative order; columnId is
no longer a key of the mapping; if the new columnOrder starts with an id that is not the empty
string, that column's tasks become its old tasks followed by the removed column's tasks in
their order and every other remaining column is unchanged; if no column remains the mapping is
empty, so the tasks are discarded.  The undo slot is unchanged. -/
theorem removeColumn_moves_tasks (s : State) (colId : String)
    (hinv : boardInv s.board) (hcount : s.board.columnsOrder.count colId = 1) :
    ∃ col s2,
      getCol s.board.columns colId = some col ∧
      removeColumn s colId true = .done s2 ∧
      s2.lastDeleted = s.lastDeleted ∧
      s2.board.columnsOrder = s.board.columnsOrder.filter (fun k => k ≠ colId) ∧
      colId ∉ s2.board.columnsOrder ∧
      getCol s2.board.columns colId = none ∧
      (∀ tgt rest, s2.board.columnsOrder = tgt :: rest → tgt ≠ "" →
        ∃ tcol, getCol s.board.columns tgt = some tcol ∧
          getCol s2.board.columns tgt =
            some { tcol with tasks := tcol.tasks ++ col.tasks } ∧
          ∀ k, k ≠ colId → k ≠ tgt →
            getCol s2.board.columns k = getCol s.board.columns k) ∧
      (s2.board.columnsOrder = [] → s2.board.columns = []) := by
  have hmem : colId ∈ s.board.columnsOrder := List.count_pos_iff.1 (by omega)
  have horder := splice_indexOf_of_mem s.board.columnsOrder colId hmem
  have hfilter := erase_eq_filter_of_count_one s.board.columnsOrder colId hcount
  have hinv2 := (boardInv_iff s.board).1 hinv
  obtain ⟨col, hcol⟩ := (getCol_some_iff_mem_keys _ _).2 ((hinv2 colId).1 hmem)
  have hnotmem : colId ∉ s.board.columnsOrder.erase colId := by
    rw [mem_erase_of_count_one _ _ _ hcount]
    simp
  cases hhead : (s.board.columnsOrder.erase colId).head? with
  | none =>
    have hnil : s.board.columnsOrder.erase colId = [] := List.head?_eq_none_iff.1 hhead
    have hpush : pushTasksToTarget s.board.columns none colId = .normal s.board.columns := by
      simp [pushTasksToTarget]
    refine ⟨col, { s with board := { columnsOrder := s.board.columnsOrder.erase colId,
                                     columns := deleteCol s.board.columns colId } },
      hcol, ?_, rfl, hfilter, hnotmem, ?_, ?_, ?_⟩
    · simp only [removeColumn, Bool.not_true, Bool.false_eq_true, if_false, horder, hhead,
        hpush]
    · simp [getCol_deleteCol]
    · intro tgt rest h
      simp only [hnil] at h
      cases h
    · intro _
      simp only [deleteCol, List.filter_eq_nil_iff, ne_eq, decide_not, Bool.not_eq_true',
        decide_eq_false_iff_not, not_not]
      intro p hp
      have h1 : p.1 ∈ s.board.columnsOrder := (hinv2 p.1).2 (List.mem_map.2 ⟨p, hp, rfl⟩)
      by_contra hne
      have h2 : p.1 ∈ s.board.columnsOrder.erase colId :=
        (mem_erase_of_count_one _ _ _ hcount).2 ⟨hne, h1⟩
      rw [hnil] at h2
      simp at h2
  | some tgt =>
    have htmem : tgt ∈ s.board.columnsOrder.erase colId := List.mem_of_mem_head? hhead
    have htne : tgt ≠ colId := fun e => hnotmem (e ▸ htmem)
    obtain ⟨tcol, htcol⟩ := (getCol_some_iff_mem_keys _ _).2
      ((hinv2 tgt).1 (List.mem_of_mem_erase htmem))
    obtain ⟨cols2, hpush, _⟩ := pushTasksToTarget_keys s.board.columns (some tgt) colId
      col hcol (fun t ht => by cases ht; exact ⟨tcol, htcol⟩)
    refine ⟨col, { s with board := { columnsOrder := s.board.columnsOrder.erase colId,
                                     columns := deleteCol cols2 colId } },
      hcol, ?_, rfl, hfilter, hnotmem, ?_, ?_, ?_⟩
    · simp only [removeColumn, Bool.not_true, Bool.false_eq_true, if_false, horder, hhead,
        hpush]
    · simp [getCol_deleteCol]
    · intro t rest h hne
      have ht : t = tgt := by
        have h2 : (s.board.columnsOrder.erase colId).head? = some t := by
          simp only at h
          rw [h]
          rfl
        rw [hhead] at h2
        cases h2
        rfl
      subst ht
      obtain ⟨cols3, hpush3, hget, hother⟩ :=
        pushTasksToTarget_spec s.board.columns t colId col tcol hcol htcol hne
      rw [hpush] at hpush3
      cases hpush3
      refine ⟨tcol, htcol, ?_, ?_⟩
      · simp only [getCol_deleteCol, htne, if_false]
        exact hget
      · intro k hk1 hk2
        simp only [getCol_deleteCol, hk1, if_false]
        exact hother k hk2
    · intro h
      simp only at h
      rw [h] at htmem
      simp at htmem

/-- Witness of C5: the spec's example.  `columnsOrder` is [todo, progress, done] and
"progress" holds X; removing "progress" appends X to the tasks of "todo". -/
theorem removeColumn_moves_tasks_witness :
    boardInv progressState.board ∧ progressState.board.columnsOrder.count "progress" = 1 ∧
    removeColumn progressState "progress" true =
      .done { board :=
                { columnsOrder := ["todo", "done"]
                  columns :=
                    [ ("todo", { id := "todo", title := "To Do",
                                 tasks := [sampleTask "a" "A", sampleTask "x" "X"] }),
                      ("done", { id := "done", title := "Done", tasks := [] }) ] }
              lastDeleted := none } ∧
    ∃ col s2,
      getCol progressState.board.columns "progress" = some col ∧
      removeColumn progressState "progress" true = .done s2 ∧
      s2.lastDeleted = progressState.lastDeleted ∧
      s2.board.columnsOrder =
        progressState.board.columnsOrder.filter (fun k => k ≠ "progress") ∧
      "progress" ∉ s2.board.columnsOrder ∧
      getCol s2.board.columns "progress" = none ∧
      (∀ tgt rest, s2.board.columnsOrder = tgt :: rest → tgt ≠ "" →
        ∃ tcol, getCol progressState.board.columns tgt = some tcol ∧
          getCol s2.board.columns tgt =
            some { tcol with tasks := tcol.tasks ++ col.tasks } ∧
          ∀ k, k ≠ "progress" → k ≠ tgt →
            getCol s2.board.columns k = getCol progressState.board.columns k) ∧
      (s2.board.columnsOrder = [] → s2.board.columns = []) :=
  ⟨by decide, by decide, by decide,
    removeColumn_moves_tasks progressState "progress" (by decide) (by decide)⟩

/-! ## C6: removeColumn of an id that is not listed -/

/-- C6, evaluation of the code where the claim fails.  "archive" is not in the column order
of the default board; `indexOf` gives -1 and `splice(-1, 1)` removes the last id, so the
confirmed removeColumn("archive") drops "done" from `columnsOrder` (its column stays in the
mapping) instead of leaving the state unchanged. -/
theorem removeColumn_unlisted_drops_last :
    "archive" ∉ initialState.board.columnsOrder ∧
    indexOf initialState.board.columnsOrder "archive" = -1 ∧
    removeColumn initialState "archive" true =
      .done { board := { columnsOrder := ["todo", "progress"],
                         columns := defaultBoard.columns },
              lastDeleted := none } ∧
    (removeColumn initialState "archive" true).state ≠ initialState := by
  refine ⟨by decide, by decide, by decide, by decide⟩

/-! ## C7: moveTask of a task that is on the board -/

theorem mem_taskIdsOf (cols : List (String × Column)) (k : String) (c : Column) (t : Task)
    (h : getCol cols k = some c) (ht : t ∈ c.tasks) : t.id ∈ taskIdsOf cols := by
  induction cols with
  | nil => simp [getCol] at h
  | cons p rest ih =>
    obtain ⟨k0, c0⟩ := p
    by_cases hk : k0 = k
    · simp only [getCol, hk, if_true, Option.some.injEq] at h
      subst h
      simp only [taskIdsOf, List.mem_append, List.mem_map]
      exact Or.inl ⟨t, ht, rfl⟩
    · simp only [getCol, hk, if_false] at h
      simp only [taskIdsOf, List.mem_append]
      exact Or.inr (ih h)

/-- With distinct task ids, two tasks with the same id found under two keys are the same task
under the same key. -/
theorem nodup_ids_unique (cols : List (String × Column)) (k1 k2 : String) (c1 c2 : Column)
    (t1 t2 : Task) (hn : (taskIdsOf cols).Nodup) (h1 : getCol cols k1 = some c1)
    (h2 : getCol cols k2 = some c2) (ht1 : t1 ∈ c1.tasks) (ht2 : t2 ∈ c2.tasks)
    (hid : t1.id = t2.id) : k1 = k2 ∧ t1 = t2 := by
  induction cols with
  | nil => simp [getCol] at h1
  | cons p rest ih =>
    obtain ⟨k0, c0⟩ := p
    simp only [taskIdsOf] at hn
    obtain ⟨hn0, hnrest, hdisj⟩ := List.nodup_append.1 hn
    by_cases hk1 : k0 = k1
    · simp only [getCol, hk1, if_true, Option.some.injEq] at h1
      subst h1
      by_cases hk2 : k0 = k2
      · simp only [getCol, hk2, if_true, Option.some.injEq] at h2
        subst h2
        exact ⟨hk1.symm.trans hk2, List.inj_on_of_nodup_map hn0 ht1 ht2 hid⟩
      · simp only [getCol, hk2, if_false] at h2
        have ha : t1.id ∈ c0.tasks.map (fun t => t.id) := List.mem_map.2 ⟨t1, ht1, rfl⟩
        have hb : t1.id ∈ taskIdsOf rest := hid ▸ mem_taskIdsOf rest k2 c2 t2 h2 ht2
        exact absurd hb (fun hb => hdisj ha hb)
    · simp only [getCol, hk1, if_false] at h1
      by_cases hk2 : k0 = k2
      · simp only [getCol, hk2, if_true, Option.some.injEq] at h2
        subst h2
        have ha : t1.id ∈ c0.tasks.map (fun t => t.id) :=
          hid ▸ List.mem_map.2 ⟨t2, ht2, rfl⟩
        have hb : t1.id ∈ taskIdsOf rest := mem_taskIdsOf rest k1 c1 t1 h1 ht1
        exact absurd hb (fun hb => hdisj ha hb)
      · simp only [getCol, hk2, if_false] at h2
        exact ih hnrest h1 h2

theorem take_drop_min {α : Type} (xs : List α) (n : Nat) (x : α) :
    xs.take n ++ x :: xs.drop n =
      xs.take (min n xs.length) ++ x :: xs.drop (min n xs.length) := by
  rcases Nat.le_total n xs.length with h | h
  · rw [Nat.min_eq_left h]
  · rw [Nat.min_eq_right h, List.take_of_length_le h, List.drop_of_length_le h]
    simp

/-- Taking out the element found by `findIndexById` is erasing that element. -/
theorem take_drop_eq_erase (id : String) (ts : List Task) (i : Nat) (t : Task)
    (h : findIndexById id ts = some (i, t)) :
    ts.take i ++ ts.drop (i + 1) = ts.erase t := by
  obtain ⟨_, hid, hsplit, hbefore⟩ := findIndexById_spec id ts i t h
  have hnot : t ∉ ts.take i := fun hm => hbefore t hm hid
  conv_rhs => rw [hsplit]
  rw [List.erase_append_right _ hnot, List.erase_cons_head]

/-- C7 as stated fails on `ghostOrderState`: its task ids are distinct, B is in the listed
column "todo" and "todo" exists, but `columnsOrder` starts with "ghost", which has no column.
`removeTaskById` stops on a `TypeError` at "ghost", the drop handler ends there, and "todo"
stays [A, B] instead of becoming [B, A]. -/
theorem moveTask_stops_on_missing_column :
    (taskIds ghostOrderState.board).Nodup ∧
    taskPresent ghostOrderState.board "b" ∧
    getCol ghostOrderState.board.columns "todo" =
      some { id := "todo", title := "To Do",
             tasks := [sampleTask "a" "A", sampleTask "b" "B"] } ∧
    moveTask ghostOrderState (some (cardOf (sampleTask "b" "B"))) "todo" 0 "now" =
      .threw ghostOrderState ∧
    getCol (moveTask ghostOrderState (some (cardOf (sampleTask "b" "B"))) "todo" 0
        "now").state.board.columns "todo" ≠
      some { id := "todo", title := "To Do",
             tasks := [sampleTask "b" "B", sampleTask "a" "A"] } := by
  refine ⟨by decide, ⟨"todo", by decide, _, rfl, sampleTask "b" "B", by decide, rfl⟩,
    by decide, by decide, by decide⟩

/-- C7, amended.  On a board in which every id of `columnsOrder` has a column in the mapping
and whose task ids are distinct, for a task T in a listed column, an existing destination
column D and any destIndex, moveTask returns; D's tasks become D's old tasks with T removed
(if T was in D) and T, with all its fields, inserted at position min(destIndex, length of
that sequence); T's former column, if different from D, is its old sequence without T; every
other column and `columnsOrder` are unchanged; and moving the only task of a column to index 0
of its own column leaves the board as it was. -/
theorem moveTask_places_task (s : State) (t : Task) (src dest : String) (colS colD : Column)
    (el : DragEl) (destIndex : Nat) (now : String)
    (hcols : orderHasColumns s.board) (hnodup : (taskIds s.board).Nodup)
    (hsrc : src ∈ s.board.columnsOrder) (hcolS : getCol s.board.columns src = some colS)
    (ht : t ∈ colS.tasks) (hcolD : getCol s.board.columns dest = some colD)
    (hel : el.dataId = t.id) :
    ∃ s2, moveTask s (some el) dest destIndex now = .done s2 ∧
      s2.board.columnsOrder = s.board.columnsOrder ∧
      getCol s2.board.columns dest =
        some { colD with tasks :=
          (colD.tasks.erase t).take (min destIndex (colD.tasks.erase t).length) ++
            t :: (colD.tasks.erase t).drop (min destIndex (colD.tasks.erase t).length) } ∧
      (src ≠ dest →
        getCol s2.board.columns src = some { colS with tasks := colS.tasks.erase t }) ∧
      (∀ k, k ≠ src → k ≠ dest → getCol s2.board.columns k = getCol s.board.columns k) ∧
      (src = dest → colS.tasks = [t] → destIndex = 0 → s2.board = s.board) := by
  have hpres : taskPresent s.board el.dataId := ⟨src, hsrc, colS, hcolS, t, ht, hel.symm⟩
  obtain ⟨cId, col, idx, removed, hcol, hf, hrun⟩ := taskPresent_found s el.dataId hcols hpres
  obtain ⟨hlt, hrid, hsplit, _⟩ := findIndexById_spec el.dataId col.tasks idx removed hf
  have hrmem : removed ∈ col.tasks := by
    rw [hsplit]
    simp
  obtain ⟨hkey, hsame⟩ := nodup_ids_unique s.board.columns cId src col colS removed t hnodup
    hcol hcolS hrmem ht (hrid.trans hel)
  subst hkey
  subst hsame
  rw [hcolS] at hcol
  cases hcol
  have herase := take_drop_eq_erase el.dataId colS.tasks idx removed hf
  rw [herase] at hrun
  by_cases hsd : cId = dest
  · subst hsd
    rw [hcolS] at hcolD
    cases hcolD
    have hd := getCol_setTasks_same s.board.columns cId (colS.tasks.erase removed) colS hcolS
    refine ⟨{ board := { columnsOrder := s.board.columnsOrder,
                         columns := setTasks
                           (setTasks s.board.columns cId (colS.tasks.erase removed)) cId
                           ((colS.tasks.erase removed).take destIndex ++
                             removed :: (colS.tasks.erase removed).drop destIndex) },
              lastDeleted := some { task := removed, columnId := cId, index := idx } },
      ?_, rfl, ?_, ?_, ?_, ?_⟩
    · simp only [moveTask, hrun, hd, splice_insert]
    · simp only
      rw [getCol_setTasks_same _ _ _ _ hd, ← take_drop_min]
    · intro h
      exact absurd rfl h
    · intro k hk _
      simp only
      rw [getCol_setTasks_other _ _ _ _ hk, getCol_setTasks_other _ _ _ _ hk]
    · intro _ honly h0
      subst h0
      simp only [honly, List.erase_cons_head, List.take_nil, List.drop_nil, List.nil_append,
        setTasks_setTasks]
      have hself := setTasks_self s.board.columns cId colS hcolS
      rw [honly] at hself
      rw [hself]
  · have hnotin : removed ∉ colD.tasks := by
      intro hm
      exact hsd (nodup_ids_unique s.board.columns cId dest colS colD removed removed hnodup
        hcolS hcolD ht hm rfl).1
    have hdest : dest ≠ cId := fun e => hsd e.symm
    have hd : getCol (setTasks s.board.columns cId (colS.tasks.erase removed)) dest =
        some colD := by
      rw [getCol_setTasks_other _ _ _ _ hdest]
      exact hcolD
    refine ⟨{ board := { columnsOrder := s.board.columnsOrder,
                         columns := setTasks
                           (setTasks s.board.columns cId (colS.tasks.erase removed)) dest
                           (colD.tasks.take destIndex ++ removed :: colD.tasks.drop destIndex) },
              lastDeleted := some { task := removed, columnId := cId, index := idx } },
      ?_, rfl, ?_, ?_, ?_, ?_⟩
    · simp only [moveTask, hrun, hd, splice_insert]
    · simp only
      rw [getCol_setTasks_same _ _ _ _ hd, List.erase_of_not_mem hnotin, ← take_drop_min]
    · intro _
      simp only
      rw [getCol_setTasks_other _ _ _ _ hsd]
      exact getCol_setTasks_same _ _ _ _ hcolS
    · intro k hk1 hk2
      simp only
      rw [getCol_setTasks_other _ _ _ _ hk2, getCol_setTasks_other _ _ _ _ hk1]
    · intro h
      exact absurd h hsd

/-- Witness of C7 on `abcState`: dragging C to index 0 of its own column "todo". -/
theorem moveTask_places_task_witness :
    orderHasColumns abcState.board ∧ (taskIds abcState.board).Nodup ∧
    moveTask abcState (some (cardOf (sampleTask "c" "C"))) "todo" 0 "now" =
      .done { board :=
                { columnsOrder := ["todo", "progress", "done"]
                  columns :=
                    [ ("todo", { id := "todo", title := "To Do",
                                 tasks := [sampleTask "c" "C", sampleTask "a" "A",
                                           sampleTask "b" "B"] }),
                      ("progress", { id := "progress", title := "In Progress", tasks := [] }),
                      ("done", { id := "done", title := "Done", tasks := [] }) ] }
              lastDeleted := some { task := sampleTask "c" "C", columnId := "todo",
                                    index := 2 } } ∧
    ∃ s2, moveTask abcState (some (cardOf (sampleTask "c" "C"))) "todo" 0 "now" = .done s2 ∧
      s2.board.columnsOrder = abcState.board.columnsOrder :=
  have hcols : orderHasColumns abcState.board := by decide
  have hnodup : (taskIds abcState.board).Nodup := by decide
  have h := moveTask_places_task abcState (sampleTask "c" "C") "todo" "todo"
    { id := "todo", title := "To Do",
      tasks := [sampleTask "a" "A", sampleTask "b" "B", sampleTask "c" "C"] }
    { id := "todo", title := "To Do",
      tasks := [sampleTask "a" "A", sampleTask "b" "B", sampleTask "c" "C"] }
    (cardOf (sampleTask "c" "C")) 0 "now" hcols hnodup (by decide) rfl (by decide) rfl rfl
  ⟨hcols, hnodup, by decide, h.elim fun s2 hs => ⟨s2, hs.1, hs.2.1⟩⟩

/-! ## C8: moveTask of an id that is in no column -/

theorem findTaskByIdLoop_absent (cols : List (String × Column)) (id : String)
    (order : List String)
    (hcols : ∀ cId, cId ∈ order → ∃ col, getCol cols cId = some col)
    (habs : ∀ cId, cId ∈ order → ∀ col, getCol cols cId = some col →
      ∀ t, t ∈ col.tasks → t.id ≠ id) :
    findTaskByIdLoop cols id order = .normal none := by
  induction order with
  | nil => rfl
  | cons c rest ih =>
    obtain ⟨col, hcol⟩ := hcols c (List.mem_cons_self _ _)
    have hf : col.tasks.find? (fun x => decide (x.id = id)) = none := by
      rw [List.find?_eq_none]
      intro x hx
      simpa using habs c (List.mem_cons_self _ _) col hcol x hx
    simp only [findTaskByIdLoop, hcol, hf]
    exact ih (fun x hx => hcols x (List.mem_cons_of_mem _ hx))
      (fun x hx => habs x (List.mem_cons_of_mem _ hx))

/-- C8 as stated fails: "ghost" is the id of no task of the default board, yet moveTask of a
card with that id puts a task rebuilt from the card into "todo". -/
theorem moveTask_unknown_id_inserts :
    ¬ taskPresent initialState.board "ghost" ∧
    moveTask initialState (some (cardOf (sampleTask "ghost" "Ghost"))) "todo" 0 "now" =
      .done { board :=
                { columnsOrder := ["todo", "progress", "done"]
                  columns :=
                    [ ("todo", { id := "todo", title := "To Do",
                                 tasks := [{ id := "ghost", title := "Ghost", description := "",
                                             priority := "low", due := "", subtasks := [],
                                             comments := [], createdAt := "now" }] }),
                      ("progress", { id := "progress", title := "In Progress", tasks := [] }),
                      ("done", { id := "done", title := "Done", tasks := [] }) ] }
              lastDeleted := none } ∧
    (moveTask initialState (some (cardOf (sampleTask "ghost" "Ghost"))) "todo" 0
      "now").state ≠ initialState := by
  refine ⟨by decide, by decide, by decide⟩

/-- C8, amended.  On a board in which every id of `columnsOrder` has a column in the mapping,
for a card whose id is the id of no task in a listed column: if the destination column
exists, moveTask returns after inserting, at position min(destIndex, length) of the
destination, the task rebuilt from the card by `reconstructFromEl` (the card's id, due "",
no subtasks, no comments, created now), and `columnsOrder`, every other column and the undo
slot are unchanged; if the destination column does not exist, moveTask stops on a `TypeError`
with the state unchanged. -/
theorem moveTask_unknown_id (s : State) (el : DragEl) (dest : String) (destIndex : Nat)
    (now : String) (hcols : orderHasColumns s.board)
    (habs : ¬ taskPresent s.board el.dataId) :
    (∀ colD, getCol s.board.columns dest = some colD →
      ∃ s2, moveTask s (some el) dest destIndex now = .done s2 ∧
        s2.lastDeleted = s.lastDeleted ∧
        s2.board.columnsOrder = s.board.columnsOrder ∧
        getCol s2.board.columns dest =
          some { colD with tasks :=
            colD.tasks.take (min destIndex colD.tasks.length) ++
              reconstructFromEl el el.dataId now ::
                colD.tasks.drop (min destIndex colD.tasks.length) } ∧
        (∀ k, k ≠ dest → getCol s2.board.columns k = getCol s.board.columns k) ∧
        (reconstructFromEl el el.dataId now).id = el.dataId ∧
        (reconstructFromEl el el.dataId now).due = "" ∧
        (reconstructFromEl el el.dataId now).subtasks = [] ∧
        (reconstructFromEl el el.dataId now).comments = [] ∧
        (reconstructFromEl el el.dataId now).createdAt = now) ∧
    (getCol s.board.columns dest = none →
      moveTask s (some el) dest destIndex now = .threw s) := by
  have habs2 : ∀ cId, cId ∈ s.board.columnsOrder → ∀ col,
      getCol s.board.columns cId = some col → ∀ t, t ∈ col.tasks → t.id ≠ el.dataId :=
    fun cId hm col hc t ht hid => habs ⟨cId, hm, col, hc, t, ht, hid⟩
  have hrun : removeTaskById s el.dataId = .normal (s, none) :=
    removeTaskByIdLoop_absent s el.dataId s.board.columnsOrder hcols habs2
  have hfind : findTaskById s.board el.dataId = .normal none :=
    findTaskByIdLoop_absent s.board.columns el.dataId s.board.columnsOrder hcols habs2
  constructor
  · intro colD hd
    refine ⟨{ s with board := { s.board with
        columns := setTasks s.board.columns dest
          (colD.tasks.take destIndex ++
            reconstructFromEl el el.dataId now :: colD.tasks.drop destIndex) } },
      ?_, rfl, rfl, ?_, ?_, rfl, rfl, rfl, rfl, rfl⟩
    · simp only [moveTask, hrun, hfind, hd, splice_insert]
    · simp only
      rw [getCol_setTasks_same _ _ _ _ hd, ← take_drop_min]
    · intro k hk
      exact getCol_setTasks_other _ _ _ _ hk
  · intro hd
    simp only [moveTask, hrun, hfind, hd]

/-- Witness of C8 on the default board with a card whose id is "ghost". -/
theorem moveTask_unknown_id_witness :
    orderHasColumns initialState.board ∧ ¬ taskPresent initialState.board "ghost" ∧
    ((∀ colD, getCol initialState.board.columns "todo" = some colD →
      ∃ s2, moveTask initialState (some (cardOf (sampleTask "ghost" "Ghost"))) "todo" 0
          "now" = .done s2 ∧
        s2.lastDeleted = initialState.lastDeleted ∧
        s2.board.columnsOrder = initialState.board.columnsOrder) ∧
     (getCol initialState.board.columns "archive" = none →
      moveTask initialState (some (cardOf (sampleTask "ghost" "Ghost"))) "archive" 0 "now" =
        .threw initialState)) :=
  have hcols : orderHasColumns initialState.board := by decide
  have habs : ¬ taskPresent initialState.board "ghost" := by decide
  ⟨hcols, habs,
    fun colD hd =>
      ((moveTask_unknown_id initialState (cardOf (sampleTask "ghost" "Ghost")) "todo" 0 "now"
        hcols habs).1 colD hd).elim fun s2 hs => ⟨s2, hs.1, hs.2.1, hs.2.2.1⟩,
    (moveTask_unknown_id initialState (cardOf (sampleTask "ghost" "Ghost")) "archive" 0 "now"
      hcols habs).2⟩

/-! ## C9 and C10: import validation -/

/-- C9 as stated fails: `emptySnapshot` has an empty column order, yet the replace import on
the board with tasks A, B, C is not rejected and replaces the board by the empty one. -/
theorem import_empty_order_replaces :
    emptySnapshot.columnsOrder = some [] ∧
    importSnapshot abcState emptySnapshot true =
      .done { board := { columnsOrder := [], columns := [] }, lastDeleted := none } ∧
    (importSnapshot abcState emptySnapshot true).state.board ≠ abcState.board ∧
    importSnapshot abcState emptySnapshot false = .done abcState := by
  refine ⟨rfl, by decide, by decide, by decide⟩

/-- C9, amended.  For every board and every snapshot whose column order is the empty sequence:
if the snapshot has a column mapping it is not rejected, the replace import replaces the
board by the snapshot (empty column order, the snapshot's mapping) and the merge import
returns with the state unchanged; if it has no column mapping, it is rejected in either mode
and the state is unchanged. -/
theorem import_empty_order (s : State) (cols : List (String × Column)) (mode : Bool) :
    importSnapshot s { columnsOrder := some [], columns := some cols } true =
      .done { board := { columnsOrder := [], columns := cols },
              lastDeleted := s.lastDeleted } ∧
    importSnapshot s { columnsOrder := some [], columns := some cols } false = .done s ∧
    importSnapshot s { columnsOrder := some [], columns := none } mode = .rejected s := by
  refine ⟨rfl, rfl, rfl⟩

/-- C10.  A snapshot that lacks the column mapping or lacks the column-order sequence is
rejected by importSnapshot in either mode, and the runtime state (columnOrder, mapping, all
task sequences, undo slot) is the one before the call. -/
theorem import_missing_field_rejected (s : State) (snap : Snapshot) (mode : Bool)
    (h : snap.columns = none ∨ snap.columnsOrder = none) :
    importSnapshot s snap mode = .rejected s ∧
      (importSnapshot s snap mode).state = s := by
  obtain ⟨po, pc⟩ := snap
  have hr : importSnapshot s { columnsOrder := po, columns := pc } mode = .rejected s := by
    cases po with
    | none => cases pc <;> rfl
    | some order =>
      cases pc with
      | none => rfl
      | some cols => simp at h
  rw [hr]
  exact ⟨rfl, rfl⟩

/-- Witness of C10: a document with a column order and no column mapping, on the board with
tasks A, B, C, in merge mode. -/
theorem import_missing_field_rejected_witness :
    (orderOnlySnapshot.columns = none ∨ orderOnlySnapshot.columnsOrder = none) ∧
    importSnapshot abcState orderOnlySnapshot false = .rejected abcState ∧
    (importSnapshot abcState orderOnlySnapshot false).state = abcState :=
  ⟨Or.inl rfl, import_missing_field_rejected abcState orderOnlySnapshot false (Or.inl rfl)⟩

/-! ## C11: merge import -/

theorem getCol_setCol_same (cols : List (String × Column)) (k : String) (c : Column) :
    getCol (setCol cols k c) k = some c := by
  induction cols with
  | nil => simp [setCol, getCol]
  | cons p rest ih =>
    obtain ⟨k0, c0⟩ := p
    by_cases hk : k0 = k
    · simp [setCol, getCol, hk]
    · simp [setCol, getCol, hk, ih]

theorem getCol_setCol_other (cols : List (String × Column)) (k k2 : String) (c : Column)
    (h : k2 ≠ k) : getCol (setCol cols k c) k2 = getCol cols k2 := by
  induction cols with
  | nil =>
    have : ¬ k = k2 := fun e => h e.symm
    simp [setCol, getCol, this]
  | cons p rest ih =>
    obtain ⟨k0, c0⟩ := p
    by_cases hk : k0 = k
    · subst hk
      have : ¬ k0 = k2 := fun e => h e.symm
      simp [setCol, getCol, this]
    · by_cases hk2 : k0 = k2
      · subst hk2
        simp [setCol, getCol, hk]
      · simp [setCol, getCol, hk, hk2, ih]

/-- The merge loop over pairwise distinct ids, none adopted before, each with a column in the
document, and none an inherited name without a column on the board: it does not throw; the ids
without a column on the board are appended to the column order in their order and get the
document's column; the ids with a column keep it, with the document's tasks appended; every
other key is as before. -/
theorem mergeLoop_spec (pcols : List (String × Column)) (ids : List String) :
    ∀ (b : Board) (adopted : List String), ids.Nodup →
      (∀ cid, cid ∈ ids → cid ∉ adopted) →
      (∀ cid, cid ∈ ids → ∃ pc, getCol pcols cid = some pc) →
      (∀ cid, cid ∈ ids → getCol b.columns cid = none → cid ∉ inheritedNames) →
      ∃ b2, mergeLoop pcols b adopted ids = (b2, false) ∧
        b2.columnsOrder =
          b.columnsOrder ++ ids.filter (fun k => (getCol b.columns k).isNone) ∧
        (∀ k, k ∉ ids → getCol b2.columns k = getCol b.columns k) ∧
        (∀ k, k ∈ ids → getCol b.columns k = none → getCol b2.columns k = getCol pcols k) ∧
        (∀ k col pc, k ∈ ids → getCol b.columns k = some col → getCol pcols k = some pc →
          getCol b2.columns k = some { col with tasks := col.tasks ++ pc.tasks }) := by
  induction ids with
  | nil =>
    intro b adopted _ _ _ _
    exact ⟨b, rfl, by simp, fun k _ => rfl, fun k hk => by simp at hk,
      fun k col pc hk => by simp at hk⟩
  | cons cid rest ih =>
    intro b adopted hnodup hadopted hids hnames
    obtain ⟨hnotin, hnodup2⟩ := List.nodup_cons.1 hnodup
    obtain ⟨pc, hpc⟩ := hids cid (List.mem_cons_self _ _)
    have hids2 : ∀ c, c ∈ rest → ∃ pc, getCol pcols c = some pc :=
      fun c hc => hids c (List.mem_cons_of_mem _ hc)
    have hne : ∀ k, k ∈ rest → k ≠ cid := fun k hk e => hnotin (e ▸ hk)
    cases hc : getCol b.columns cid with
    | none =>
      have hadopted2 : ∀ c, c ∈ rest → c ∉ cid :: adopted := by
        intro c hcr hmem
        rcases List.mem_cons.1 hmem with e | e
        · exact hne c hcr e
        · exact hadopted c (List.mem_cons_of_mem _ hcr) e
      have hnames2 : ∀ c, c ∈ rest → getCol (setCol b.columns cid pc) c = none →
          c ∉ inheritedNames := by
        intro c hcr hnone
        rw [getCol_setCol_other _ _ _ _ (hne c hcr)] at hnone
        exact hnames c (List.mem_cons_of_mem _ hcr) hnone
      have hread := readCol_undefined _ _ hc (hnames cid (List.mem_cons_self _ _) hc)
      obtain ⟨b2, hrun, horder, hother, habsent, hpresent⟩ :=
        ih { columnsOrder := b.columnsOrder ++ [cid], columns := setCol b.columns cid pc }
          (cid :: adopted) hnodup2 hadopted2 hids2 hnames2
      have hfilter : rest.filter (fun k => (getCol (setCol b.columns cid pc) k).isNone) =
          rest.filter (fun k => (getCol b.columns k).isNone) := by
        apply List.filter_congr
        intro k hk
        rw [getCol_setCol_other _ _ _ _ (hne k hk)]
      refine ⟨b2, ?_, ?_, ?_, ?_, ?_⟩
      · simp only [mergeLoop, hread, hpc]
        exact hrun
      · rw [horder]
        simp only [hfilter, List.filter_cons, hc, Option.isNone_none, if_true,
          List.append_assoc, List.singleton_append]
      · intro k hk
        have hk1 : k ≠ cid := fun e => hk (e ▸ List.mem_cons_self _ _)
        have hk2 : k ∉ rest := fun e => hk (List.mem_cons_of_mem _ e)
        rw [hother k hk2]
        exact getCol_setCol_other _ _ _ _ hk1
      · intro k hk hnone
        rcases List.mem_cons.1 hk with rfl | hk
        · rw [hother k hnotin, hpc]
          exact getCol_setCol_same _ _ _
        · apply habsent k hk
          simp only
          rw [getCol_setCol_other _ _ _ _ (hne k hk)]
          exact hnone
      · intro k col pc2 hk hsome hpc2
        rcases List.mem_cons.1 hk with rfl | hk
        · rw [hc] at hsome
          cases hsome
        · apply hpresent k col pc2 hk _ hpc2
          simp only
          rw [getCol_setCol_other _ _ _ _ (hne k hk)]
          exact hsome
    | some col0 =>
      have hcid : cid ∉ adopted := hadopted cid (List.mem_cons_self _ _)
      have hadopted2 : ∀ c, c ∈ rest → c ∉ adopted :=
        fun c hcr => hadopted c (List.mem_cons_of_mem _ hcr)
      have hnames2 : ∀ c, c ∈ rest →
          getCol (setTasks b.columns cid (col0.tasks ++ pc.tasks)) c = none →
          c ∉ inheritedNames := by
        intro c hcr hnone
        rw [getCol_setTasks_other _ _ _ _ (hne c hcr)] at hnone
        exact hnames c (List.mem_cons_of_mem _ hcr) hnone
      obtain ⟨b2, hrun, horder, hother, habsent, hpresent⟩ :=
        ih { columnsOrder := b.columnsOrder,
             columns := setTasks b.columns cid (col0.tasks ++ pc.tasks) }
          adopted hnodup2 hadopted2 hids2 hnames2
      have hfilter : rest.filter (fun k =>
            (getCol (setTasks b.columns cid (col0.tasks ++ pc.tasks)) k).isNone) =
          rest.filter (fun k => (getCol b.columns k).isNone) := by
        apply List.filter_congr
        intro k hk
        rw [getCol_setTasks_other _ _ _ _ (hne k hk)]
      refine ⟨b2, ?_, ?_, ?_, ?_, ?_⟩
      · simp only [mergeLoop, readCol_of_some _ _ _ hc, readCol_of_some _ _ _ hpc, hcid,
          if_false]
        exact hrun
      · rw [horder]
        simp only [hfilter, List.filter_cons, hc, Option.isNone_some, Bool.false_eq_true,
          if_false]
      · intro k hk
        have hk1 : k ≠ cid := fun e => hk (e ▸ List.mem_cons_self _ _)
        have hk2 : k ∉ rest := fun e => hk (List.mem_cons_of_mem _ e)
        rw [hother k hk2]
        exact getCol_setTasks_other _ _ _ _ hk1
      · intro k hk hnone
        rcases List.mem_cons.1 hk with rfl | hk
        · rw [hc] at hnone
          cases hnone
        · apply habsent k hk
          simp only
          rw [getCol_setTasks_other _ _ _ _ (hne k hk)]
          exact hnone
      · intro k col pc2 hk hsome hpc2
        rcases List.mem_cons.1 hk with rfl | hk
        · rw [hc] at hsome
          cases hsome
          rw [hpc] at hpc2
          cases hpc2
          rw [hother k hnotin]
          exact getCol_setTasks_same _ _ _ _ hc
        · apply hpresent k col pc2 hk _ hpc2
          simp only
          rw [getCol_setTasks_other _ _ _ _ (hne k hk)]
          exact hsome

/-- On a board that satisfies the invariant, a key has no column exactly when it is not in
the column order. -/
theorem isNone_getCol_iff (b : Board) (hinv : boardInv b) (k : String) :
    (getCol b.columns k).isNone = true ↔ k ∉ b.columnsOrder := by
  rw [(boardInv_iff b).1 hinv k, ← getCol_some_iff_mem_keys]
  cases getCol b.columns k <;> simp

/-- The merge of a snapshot whose new ids are not inherited names: a board that satisfies the
columnOrder/mapping invariant, a snapshot that satisfies it too and whose column order has
pairwise distinct ids, and no incoming id that is new to the board is an inherited name.
The merge returns with the undo slot untouched and a board whose columnOrder is the old one
followed by the incoming ids that were not on the board, in incoming order; each of those ids
has exactly the incoming column; each incoming id that was on the board keeps its column (id
and title) with the incoming tasks appended after its old tasks, nothing removed for equal
task ids; and every key not named by the snapshot has the column it had. -/
theorem merge_import_spec (s : State) (order : List String) (cols : List (String × Column))
    (hinv : boardInv s.board) (hsnap : boardInv { columnsOrder := order, columns := cols })
    (hnodup : order.Nodup)
    (hnames : ∀ k, k ∈ order → k ∉ s.board.columnsOrder → k ∉ inheritedNames) :
    ∃ b2,
      importSnapshot s { columnsOrder := some order, columns := some cols } false =
        .done { board := b2, lastDeleted := s.lastDeleted } ∧
      b2.columnsOrder =
        s.board.columnsOrder ++ order.filter (fun k => k ∉ s.board.columnsOrder) ∧
      (∀ k, k ∈ order → k ∉ s.board.columnsOrder →
        ∃ pc, getCol cols k = some pc ∧ getCol b2.columns k = some pc) ∧
      (∀ k, k ∈ order → k ∈ s.board.columnsOrder →
        ∃ col pc, getCol s.board.columns k = some col ∧ getCol cols k = some pc ∧
          getCol b2.columns k = some { col with tasks := col.tasks ++ pc.tasks }) ∧
      (∀ k, k ∉ order → getCol b2.columns k = getCol s.board.columns k) := by
  have hids : ∀ cid, cid ∈ order → ∃ pc, getCol cols cid = some pc := fun cid h => hsnap.1 cid h
  have hnames2 : ∀ cid, cid ∈ order → getCol s.board.columns cid = none →
      cid ∉ inheritedNames := by
    intro cid hmem hnone
    apply hnames cid hmem
    apply (isNone_getCol_iff s.board hinv cid).1
    simp [hnone]
  obtain ⟨b2, hrun, horder, hother, habsent, hpresent⟩ :=
    mergeLoop_spec cols order s.board [] hnodup (fun cid _ => by simp) hids hnames2
  have hfilter : order.filter (fun k => (getCol s.board.columns k).isNone) =
      order.filter (fun k => decide (k ∉ s.board.columnsOrder)) := by
    apply List.filter_congr
    intro k _
    by_cases hk : k ∈ s.board.columnsOrder
    · have h1 : ¬ (getCol s.board.columns k).isNone = true :=
        fun h => (isNone_getCol_iff s.board hinv k).1 h hk
      simp [hk, h1]
    · have h1 : (getCol s.board.columns k).isNone = true :=
        (isNone_getCol_iff s.board hinv k).2 hk
      simp [hk, h1]
  refine ⟨b2, ?_, ?_, ?_, ?_, hother⟩
  · simp only [importSnapshot, Bool.false_eq_true, if_false, hrun]
  · rw [horder, hfilter]
  · intro k hk hnot
    obtain ⟨pc, hpc⟩ := hids k hk
    have hnone : getCol s.board.columns k = none := by
      have h1 := (isNone_getCol_iff s.board hinv k).2 hnot
      cases hg : getCol s.board.columns k with
      | none => rfl
      | some c => simp [hg] at h1
    exact ⟨pc, hpc, by rw [habsent k hk hnone, hpc]⟩
  · intro k hk hin
    obtain ⟨pc, hpc⟩ := hids k hk
    obtain ⟨col, hcol⟩ := hinv.1 k hin
    exact ⟨col, pc, hcol, hpc, hpresent k col pc hk hcol hpc⟩

/-- Merging `reviewSnapshot` into the board with tasks A, B, C.  "done" was on the board and
gets the incoming task D, "review" is new and is taken over, with its task whose id "a" is also
the id of a task in "todo". -/
theorem merge_import_of_review_snapshot :
    importSnapshot abcState reviewSnapshot false =
      .done { board :=
                { columnsOrder := ["todo", "progress", "done", "review"]
                  columns :=
                    [ ("todo", { id := "todo", title := "To Do",
                                 tasks := [sampleTask "a" "A", sampleTask "b" "B",
                                           sampleTask "c" "C"] }),
                      ("progress", { id := "progress", title := "In Progress", tasks := [] }),
                      ("done", { id := "done", title := "Done",
                                 tasks := [sampleTask "d" "D"] }),
                      ("review", { id := "review", title := "Review",
                                   tasks := [sampleTask "a" "A2"] }) ] }
              lastDeleted := none } := by
  decide

/-- C11, evaluation of the code where the claim fails.  The default board satisfies the
invariant, `constructorSnapshot` satisfies it too and its column order has one id,
"constructor", which is not on the board.  The claim says the merge import appends
"constructor" to columnOrder and takes over the incoming column.  In the handler
`!state.columns["constructor"]` is false, because the read finds the inherited `constructor`
of the `columns` object; the else branch reads `.tasks.concat` of it, the `TypeError` is
caught, and nothing is imported. -/
theorem merge_import_inherited_name :
    boardInv initialState.board ∧
    boardInv { columnsOrder := ["constructor"],
               columns := [("constructor", { id := "constructor", title := "Ctor",
                                             tasks := [sampleTask "k" "K"] })] } ∧
    ["constructor"].Nodup ∧
    "constructor" ∉ initialState.board.columnsOrder ∧
    getCol initialState.board.columns "constructor" = none ∧
    readCol initialState.board.columns "constructor" = .inherited ∧
    importSnapshot initialState constructorSnapshot false = .threw initialState := by
  refine ⟨by decide, by decide, by decide, by decide, by decide, by decide, by decide⟩

/-! ## C13 and C14: undoDelete -/

/-- The undo handler when it returns: the slot is empty afterwards; with an empty slot it
returns with board and slot unchanged; hence an undoDelete that follows a returned undoDelete
changes nothing. -/
theorem undoDelete_consumes_slot (s s2 : State) :
    (undoDelete s = .done s2 → s2.lastDeleted = none) ∧
    (s.lastDeleted = none → undoDelete s = .done s) ∧
    (undoDelete s = .done s2 → undoDelete s2 = .done s2) := by
  have hempty : ∀ x : State, x.lastDeleted = none → undoDelete x = .done x := by
    intro x hx
    simp only [undoDelete, hx]
  have hclears : undoDelete s = .done s2 → s2.lastDeleted = none := by
    intro h
    cases hl : s.lastDeleted with
    | none =>
      rw [hempty s hl] at h
      cases h
      exact hl
    | some ld =>
      cases hr : restoreTask s.board ld with
      | typeError => simp [undoDelete, hl, hr] at h
      | normal cols =>
        cases hrender : renderBoardThrows
            { columnsOrder := s.board.columnsOrder, columns := cols } with
        | true => simp [undoDelete, hl, hr, hrender] at h
        | false =>
          simp only [undoDelete, hl, hr, hrender, Bool.false_eq_true, if_false,
            Outcome.done.injEq] at h
          rw [← h]
  exact ⟨hclears, hempty s, fun h => hempty s2 (hclears h)⟩

/-- On the board where B was deleted the undo returns with B back and the slot empty, and a
second undo returns the same state. -/
theorem undoDelete_twice_on_pending :
    undoDelete pendingUndoState = .done abcState ∧
    abcState.lastDeleted = none ∧
    undoDelete abcState = .done abcState :=
  have h : undoDelete pendingUndoState = .done abcState := by decide
  ⟨h, (undoDelete_consumes_slot pendingUndoState abcState).1 h,
    (undoDelete_consumes_slot pendingUndoState abcState).2.2 h⟩

/-- C13, evaluation of the code where the claim fails.  On `inheritedListedState` B is in the
undo slot and the column order lists "toString", an inherited name without a column.  The undo
handler puts B back into "todo" (the restore succeeds), then `renderBoard` throws at
`col.tasks.length` for "toString", before `lastDeleted = null` runs: the slot stays pending.  A
second undo, with no deletion in between, inserts B a second time. -/
theorem undoDelete_twice_inserts_twice :
    restoreTask inheritedListedState.board
        { task := sampleTask "b" "B", columnId := "todo", index := 0 } =
      .normal [("todo", { id := "todo", title := "To Do",
                          tasks := [sampleTask "b" "B", sampleTask "a" "A"] })] ∧
    undoDelete inheritedListedState =
      .threw { board :=
                 { columnsOrder := ["todo", "toString"]
                   columns := [("todo", { id := "todo", title := "To Do",
                                          tasks := [sampleTask "b" "B", sampleTask "a" "A"] })] }
               lastDeleted :=
                 some { task := sampleTask "b" "B", columnId := "todo", index := 0 } } ∧
    (undoDelete inheritedListedState).state.lastDeleted ≠ none ∧
    undoDelete (undoDelete inheritedListedState).state =
      .threw { board :=
                 { columnsOrder := ["todo", "toString"]
                   columns := [("todo", { id := "todo", title := "To Do",
                                          tasks := [sampleTask "b" "B", sampleTask "b" "B",
                                                    sampleTask "a" "A"] })] }
               lastDeleted :=
                 some { task := sampleTask "b" "B", columnId := "todo", index := 0 } } := by
  refine ⟨by decide, by decide, by decide, by decide⟩

/-- C14 as stated fails on `ghostFirstState`: the slot's column "gone" is not a key and the
column order is not empty, but its first id "ghost" has no column; the handler stops on a
`TypeError`, nothing is inserted and the slot stays.  It also fails on
`removedConstructorState`: the slot's column "constructor" is not a key, but
`!state.columns["constructor"]` is false because of the inherited `constructor`, the else
branch reads `.tasks.splice` of it and throws; nothing is inserted into the first column
"todo". -/
theorem undoDelete_first_id_without_column :
    (getCol ghostFirstState.board.columns "gone" = none ∧
      ghostFirstState.board.columnsOrder = ["ghost", "todo"] ∧
      getCol ghostFirstState.board.columns "ghost" = none ∧
      undoDelete ghostFirstState = .threw ghostFirstState) ∧
    (getCol removedConstructorState.board.columns "constructor" = none ∧
      removedConstructorState.board.columnsOrder = ["todo"] ∧
      getCol removedConstructorState.board.columns "todo" =
        some { id := "todo", title := "To Do", tasks := [sampleTask "a" "A"] } ∧
      undoDelete removedConstructorState = .threw removedConstructorState) := by
  refine ⟨⟨by decide, by decide, by decide, by decide⟩, by decide, by decide, by decide,
    by decide⟩

/-- What the undo handler leaves on the board when its restore step does not throw. -/
theorem undoDelete_board_of_restore (s : State) (ld : LastDeleted)
    (cols : List (String × Column)) (hld : s.lastDeleted = some ld)
    (hr : restoreTask s.board ld = .normal cols) :
    (undoDelete s).state.board = { columnsOrder := s.board.columnsOrder, columns := cols } := by
  cases hrender : renderBoardThrows
      { columnsOrder := s.board.columnsOrder, columns := cols } with
  | true => simp only [undoDelete, hld, hr, hrender, if_true, Outcome.state]
  | false => simp only [undoDelete, hld, hr, hrender, Bool.false_eq_true, if_false,
      Outcome.state]

/-- C14, amended.  For a state with a pending undo slot (task, columnId, index): if columnId
is a key of the mapping, undoDelete inserts the task into that column at position
min(index, length), so at the end when the column is shorter than index; otherwise, if
columnId is not a name that every object inherits, columnOrder is not empty and its first id
has a column, it inserts the task at index 0 of that column.  In both cases `columnsOrder` and
every other column are unchanged, and the tasks of the column are the old ones in their order
with the one task added.  The board is the one the handler leaves, whether or not the
rendering after the insertion fails. -/
theorem undoDelete_restores (s : State) (ld : LastDeleted) (hld : s.lastDeleted = some ld) :
    (∀ col, getCol s.board.columns ld.columnId = some col →
      (undoDelete s).state.board.columnsOrder = s.board.columnsOrder ∧
      getCol (undoDelete s).state.board.columns ld.columnId =
        some { col with tasks :=
          col.tasks.take (min ld.index col.tasks.length) ++
            ld.task :: col.tasks.drop (min ld.index col.tasks.length) } ∧
      ∀ k, k ≠ ld.columnId →
        getCol (undoDelete s).state.board.columns k = getCol s.board.columns k) ∧
    (getCol s.board.columns ld.columnId = none → ld.columnId ∉ inheritedNames →
      ∀ first rest fcol, s.board.columnsOrder = first :: rest →
        getCol s.board.columns first = some fcol →
        (undoDelete s).state.board.columnsOrder = s.board.columnsOrder ∧
        getCol (undoDelete s).state.board.columns first =
          some { fcol with tasks := ld.task :: fcol.tasks } ∧
        ∀ k, k ≠ first →
          getCol (undoDelete s).state.board.columns k = getCol s.board.columns k) := by
  constructor
  · intro col hc
    have hr : restoreTask s.board ld = .normal (setTasks s.board.columns ld.columnId
        (col.tasks.take ld.index ++ ld.task :: col.tasks.drop ld.index)) := by
      simp only [restoreTask, readCol_of_some _ _ _ hc, splice_insert]
    rw [undoDelete_board_of_restore s ld _ hld hr]
    refine ⟨rfl, ?_, ?_⟩
    · simp only
      rw [getCol_setTasks_same _ _ _ _ hc, ← take_drop_min]
    · intro k hk
      exact getCol_setTasks_other _ _ _ _ hk
  · intro hc hname first rest fcol horder hf
    have hkey : keyOf s.board.columnsOrder.head? = first := by
      rw [horder]
      rfl
    have h0 : (splice fcol.tasks 0 0 [ld.task]).1 = ld.task :: fcol.tasks := by
      have := splice_insert fcol.tasks 0 ld.task
      simpa using this
    have hr : restoreTask s.board ld =
        .normal (setTasks s.board.columns first (ld.task :: fcol.tasks)) := by
      simp only [restoreTask, readCol_undefined _ _ hc hname, hkey, hf, h0]
    rw [undoDelete_board_of_restore s ld _ hld hr]
    refine ⟨rfl, ?_, ?_⟩
    · exact getCol_setTasks_same _ _ _ _ hf
    · intro k hk
      exact getCol_setTasks_other _ _ _ _ hk

/-- Witness of C14 on the board where B was deleted from index 1 of "todo". -/
theorem undoDelete_restores_witness :
    pendingUndoState.lastDeleted =
      some { task := sampleTask "b" "B", columnId := "todo", index := 1 } ∧
    undoDelete pendingUndoState = .done abcState ∧
    getCol (undoDelete pendingUndoState).state.board.columns "todo" =
      some { id := "todo", title := "To Do",
             tasks := [sampleTask "a" "A", sampleTask "b" "B", sampleTask "c" "C"] } :=
  ⟨rfl, by decide,
    ((undoDelete_restores pendingUndoState
        { task := sampleTask "b" "B", columnId := "todo", index := 1 } rfl).1
        { id := "todo", title := "To Do", tasks := [sampleTask "a" "A", sampleTask "c" "C"] }
        rfl).2.1⟩

/-! ## C15: addTask -/

/-- C15 as stated fails: the new task gets the trimmed description, not the given one.  On the
board with tasks A, B, C, addTask to "done" with description "  note  " appends a task whose
description is "note".  And on `emptyIdState`, where "" is the id of an existing column, the
handler's `value || columnsOrder[0]` takes the empty id for a missing one: addTask to ""
appends the task to the first column "x". -/
theorem addTask_trims_description :
    (addTask abcState "done" " New " "  note  " "high" "2024-02-01" "u1" "now" =
      .done { board :=
                { columnsOrder := ["todo", "progress", "done"]
                  columns :=
                    [ ("todo", { id := "todo", title := "To Do",
                                 tasks := [sampleTask "a" "A", sampleTask "b" "B",
                                           sampleTask "c" "C"] }),
                      ("progress", { id := "progress", title := "In Progress", tasks := [] }),
                      ("done", { id := "done", title := "Done",
                                 tasks := [{ id := "u1", title := "New", description := "note",
                                             priority := "high", due := "2024-02-01",
                                             subtasks := [], comments := [],
                                             createdAt := "now" }] }) ] }
              lastDeleted := none } ∧
      jsTrim "  note  " = "note" ∧ "note" ≠ "  note  ") ∧
    (getCol emptyIdState.board.columns "" =
        some { id := "", title := "Unnamed", tasks := [] } ∧
      addTask emptyIdState "" "New" "" "low" "" "u1" "now" =
        .done { board :=
                  { columnsOrder := ["x", ""]
                    columns :=
                      [ ("x", { id := "x", title := "X",
                                tasks := [sampleTask "t" "T",
                                          { id := "u1", title := "New", description := "",
                                            priority := "low", due := "", subtasks := [],
                                            comments := [], createdAt := "now" }] }),
                        ("", { id := "", title := "Unnamed", tasks := [] }) ] }
                lastDeleted := none }) := by
  refine ⟨⟨by decide, by decide, by decide⟩, by decide, by decide⟩

/-- C15, amended.  For every board and every columnId that is not the empty string and has a
column: addTask with a title that is empty after trimming is rejected with the state
unchanged; addTask with a title that is non-empty after trimming returns, the named column's
tasks are its old tasks followed by exactly one new task with the trimmed title, the trimmed
description, the given priority and due, and no subtasks or comments, and `columnsOrder`,
every other column and the undo slot are unchanged. -/
theorem addTask_appends (s : State) (columnId title description priority due uid now : String)
    (col : Column) (hkey : columnId ≠ "")
    (hcol : getCol s.board.columns columnId = some col) :
    (jsTrim title = "" →
      addTask s columnId title description priority due uid now = .rejected s) ∧
    (jsTrim title ≠ "" →
      ∃ s2, addTask s columnId title description priority due uid now = .done s2 ∧
        s2.lastDeleted = s.lastDeleted ∧
        s2.board.columnsOrder = s.board.columnsOrder ∧
        getCol s2.board.columns columnId =
          some { col with tasks := col.tasks ++
            [{ id := uid, title := jsTrim title, description := jsTrim description,
               priority := priority, due := due, subtasks := [], comments := [],
               createdAt := now }] } ∧
        ∀ k, k ≠ columnId → getCol s2.board.columns k = getCol s.board.columns k) := by
  constructor
  · intro ht
    simp only [addTask, saveTask, ht, if_true]
  · intro ht
    refine ⟨{ s with board := { s.board with
        columns := setTasks s.board.columns columnId (col.tasks ++
          [{ id := uid, title := jsTrim title, description := jsTrim description,
             priority := priority, due := due, subtasks := [], comments := [],
             createdAt := now }]) } }, ?_, rfl, rfl, ?_, ?_⟩
    · simp only [addTask, saveTask, ht, if_false, ne_eq, hkey, not_false_eq_true, if_true,
        keyOf, Bool.false_eq_true, hcol]
    · exact getCol_setTasks_same _ _ _ _ hcol
    · intro k hk
      exact getCol_setTasks_other _ _ _ _ hk

/-- Witness of C15: adding a task to "done" on the board with tasks A, B, C. -/
theorem addTask_appends_witness :
    ("done" : String) ≠ "" ∧
    getCol abcState.board.columns "done" = some { id := "done", title := "Done", tasks := [] } ∧
    jsTrim " New " ≠ "" ∧
    ∃ s2, addTask abcState "done" " New " "  note  " "high" "2024-02-01" "u1" "now" =
        .done s2 ∧
      s2.lastDeleted = abcState.lastDeleted ∧
      s2.board.columnsOrder = abcState.board.columnsOrder ∧
      getCol s2.board.columns "done" =
        some { id := "done", title := "Done",
               tasks := [{ id := "u1", title := jsTrim " New ",
                           description := jsTrim "  note  ", priority := "high",
                           due := "2024-02-01", subtasks := [], comments := [],
                           createdAt := "now" }] } :=
  have hkey : ("done" : String) ≠ "" := by decide
  have ht : jsTrim " New " ≠ "" := by decide
  ⟨hkey, rfl, ht,
    ((addTask_appends abcState "done" " New " "  note  " "high" "2024-02-01" "u1" "now"
        { id := "done", title := "Done", tasks := [] } hkey rfl).2 ht).elim
      fun s2 h => ⟨s2, h.1, h.2.1, h.2.2.1, h.2.2.2.1⟩⟩

/-! ## C12: editTask -/

theorem splice_replace {α : Type} (xs : List α) (n : Nat) (x : α) (h : n < xs.length) :
    (splice xs (n : Int) 1 [x]).1 = xs.take n ++ x :: xs.drop (n + 1) := by
  rw [splice_natCast_fst]
  have h1 : min n xs.length = n := Nat.min_eq_left (Nat.le_of_lt h)
  have h2 : min 1 (xs.length - n) = 1 := Nat.min_eq_left (by omega)
  simp [h1, h2]

/-- When every remaining listed id has a column and one of them holds a task with the id,
the loop of `findTaskColumn` returns the first such id. -/
theorem findTaskColumnLoop_found (cols : List (String × Column)) (id : String)
    (order : List String)
    (hcols : ∀ cId, cId ∈ order → ∃ col, getCol cols cId = some col)
    (hpres : ∃ cId, cId ∈ order ∧ ∃ col, getCol cols cId = some col ∧
      ∃ t, t ∈ col.tasks ∧ t.id = id) :
    ∃ cId col t, cId ∈ order ∧ getCol cols cId = some col ∧ t ∈ col.tasks ∧ t.id = id ∧
      findTaskColumnLoop cols id order = .normal (some cId) := by
  induction order with
  | nil =>
    obtain ⟨cId, hmem, _⟩ := hpres
    simp at hmem
  | cons c rest ih =>
    obtain ⟨col, hcol⟩ := hcols c (List.mem_cons_self _ _)
    by_cases hany : col.tasks.any (fun x => decide (x.id = id)) = true
    · obtain ⟨t, ht, hid⟩ := List.any_eq_true.1 hany
      refine ⟨c, col, t, List.mem_cons_self _ _, hcol, ht, by simpa using hid, ?_⟩
      simp only [findTaskColumnLoop, hcol, hany, if_true]
    · have hno : ∀ t, t ∈ col.tasks → t.id ≠ id := by
        intro t ht hid
        exact hany (List.any_eq_true.2 ⟨t, ht, by simpa using hid⟩)
      have hpres2 : ∃ cId, cId ∈ rest ∧ ∃ col, getCol cols cId = some col ∧
          ∃ t, t ∈ col.tasks ∧ t.id = id := by
        obtain ⟨cId, hmem, col2, hcol2, t, ht, hid⟩ := hpres
        rcases List.mem_cons.1 hmem with rfl | hmem
        · rw [hcol] at hcol2
          cases hcol2
          exact absurd hid (hno t ht)
        · exact ⟨cId, hmem, col2, hcol2, t, ht, hid⟩
      obtain ⟨cId, col2, t, hmem, hcol2, ht, hid, hrun⟩ :=
        ih (fun x hx => hcols x (List.mem_cons_of_mem _ hx)) hpres2
      refine ⟨cId, col2, t, List.mem_cons_of_mem _ hmem, hcol2, ht, hid, ?_⟩
      simp only [findTaskColumnLoop, hcol, hany, Bool.false_eq_true, if_false]
      exact hrun

/-- With distinct task ids, `findIndexById` on the column of a task finds that task. -/
theorem findIndexById_of_mem (cols : List (String × Column)) (k : String) (c : Column)
    (t : Task) (hn : (taskIdsOf cols).Nodup) (hc : getCol cols k = some c)
    (ht : t ∈ c.tasks) : ∃ idx, findIndexById t.id c.tasks = some (idx, t) := by
  cases hf : findIndexById t.id c.tasks with
  | none => exact absurd rfl ((findIndexById_none t.id c.tasks).1 hf t ht)
  | some q =>
    obtain ⟨idx, r⟩ := q
    obtain ⟨_, hrid, hsplit, _⟩ := findIndexById_spec t.id c.tasks idx r hf
    have hrmem : r ∈ c.tasks := by
      rw [hsplit]
      simp
    have hrt := (nodup_ids_unique cols k k c c r t hn hc hc hrmem ht hrid).2
    exact ⟨idx, by rw [hrt]⟩

/-- C12, amended.  On a board in which every id of `columnsOrder` has a column in the mapping
and whose task ids are distinct, for a task T with a non-empty id in a listed column with a
non-empty id, and an existing target column with a non-empty id: if the title is empty after
trimming, editTask is rejected with the state unchanged; otherwise editTask returns, T's title
and description become the trimmed title and the trimmed description, its priority and due the
given values, and its id, createdAt, subtasks and comments stay; if the target is T's column,
T stays at its index and that column's sequence of task ids is unchanged, otherwise T is
removed from its column and is the last task of the target column; `columnsOrder`, every
other column and every other task are unchanged. -/
theorem editTask_spec (s : State) (t : Task) (src target : String) (colS colT : Column)
    (title description priority due : String)
    (hcols : orderHasColumns s.board) (hnodup : (taskIds s.board).Nodup)
    (hsrc : src ∈ s.board.columnsOrder) (hcolS : getCol s.board.columns src = some colS)
    (ht : t ∈ colS.tasks) (hcolT : getCol s.board.columns target = some colT)
    (hid : t.id ≠ "") (hsrcKey : src ≠ "") (htargetKey : target ≠ "") :
    (jsTrim title = "" →
      editTask s t.id title description priority due target = .rejected s) ∧
    (jsTrim title ≠ "" →
      ∃ s2 idx, editTask s t.id title description priority due target = .done s2 ∧
        s2.board.columnsOrder = s.board.columnsOrder ∧
        colS.tasks[idx]? = some t ∧
        (editedTask t title description priority due).id = t.id ∧
        (editedTask t title description priority due).createdAt = t.createdAt ∧
        (editedTask t title description priority due).subtasks = t.subtasks ∧
        (editedTask t title description priority due).comments = t.comments ∧
        (target = src →
          getCol s2.board.columns src = some { colS with
            tasks := colS.tasks.set idx (editedTask t title description priority due) } ∧
          (colS.tasks.set idx (editedTask t title description priority due)).map
            (fun x => x.id) = colS.tasks.map (fun x => x.id)) ∧
        (target ≠ src →
          getCol s2.board.columns src = some { colS with tasks := colS.tasks.erase t } ∧
          getCol s2.board.columns target = some { colT with
            tasks := colT.tasks ++ [editedTask t title description priority due] }) ∧
        ∀ k, k ≠ src → k ≠ target →
          getCol s2.board.columns k = getCol s.board.columns k) := by
  constructor
  · intro htitle
    simp only [editTask, saveTask, htitle, if_true]
  · intro htitle
    have hpres : ∃ cId, cId ∈ s.board.columnsOrder ∧ ∃ col,
        getCol s.board.columns cId = some col ∧ ∃ x, x ∈ col.tasks ∧ x.id = t.id :=
      ⟨src, hsrc, colS, hcolS, t, ht, rfl⟩
    obtain ⟨cId, col, x, _, hcol, hx, hxid, hfind⟩ :=
      findTaskColumnLoop_found s.board.columns t.id s.board.columnsOrder hcols hpres
    have hkey := (nodup_ids_unique s.board.columns cId src col colS x t hnodup hcol hcolS hx ht
      hxid).1
    subst hkey
    obtain ⟨idx, hf⟩ := findIndexById_of_mem s.board.columns cId colS t hnodup hcolS ht
    obtain ⟨hlt, _, hsplit, _⟩ := findIndexById_spec t.id colS.tasks idx t hf
    have herase := take_drop_eq_erase t.id colS.tasks idx t hf
    have hget : colS.tasks[idx]? = some t := by
      conv_lhs => rw [hsplit]
      rw [List.getElem?_append_right (by simp [Nat.min_eq_left (Nat.le_of_lt hlt)])]
      simp [Nat.min_eq_left (Nat.le_of_lt hlt)]
    have hediting : (t.id != "") = true := by simpa using hid
    have hrepl := splice_replace colS.tasks idx
      (editedTask t title description priority due) hlt
    have hset := List.set_eq_take_cons_drop
      (editedTask t title description priority due) hlt
    have hfc : findTaskColumn s.board t.id = .normal (some cId) := hfind
    by_cases hsame : target = cId
    · subst hsame
      refine ⟨{ s with board := { s.board with
          columns := setTasks s.board.columns target
            (colS.tasks.set idx (editedTask t title description priority due)) } },
        idx, ?_, rfl, hget, rfl, rfl, rfl, rfl, ?_, ?_, ?_⟩
      · rw [hset]
        simp only [editedTask] at hrepl ⊢
        simp only [editTask, saveTask, htitle, if_false, keyOf, hediting, if_true, hfc,
          hsrcKey, hcolS, hf, hrepl, ne_eq, not_true_eq_false, not_false_eq_true]
      · intro _
        refine ⟨getCol_setTasks_same _ _ _ _ hcolS, ?_⟩
        rw [hset]
        conv_rhs => rw [hsplit]
        simp [editedTask]
      · intro h
        exact absurd rfl h
      · intro k hk _
        exact getCol_setTasks_other _ _ _ _ hk
    · have hne : cId ≠ target := fun e => hsame e.symm
      have hopt : ¬ (some cId = some target) := fun e => hne (Option.some.inj e)
      have hl : (colS.tasks.take idx).length = idx := by
        simp [Nat.min_eq_left (Nat.le_of_lt hlt)]
      have hlen : idx < (colS.tasks.take idx ++
          editedTask t title description priority due :: colS.tasks.drop (idx + 1)).length := by
        rw [List.length_append, hl]
        simp
      have hrem : (splice (colS.tasks.take idx ++
          editedTask t title description priority due :: colS.tasks.drop (idx + 1))
          (idx : Int) 1 []).1 = colS.tasks.erase t := by
        rw [splice_remove _ _ hlen, ← herase]
        rw [List.take_append_of_le_length (by omega), List.take_of_length_le (by omega),
          List.drop_append_eq_append_drop]
        have hd : (colS.tasks.take idx).drop (idx + 1) = [] :=
          List.drop_of_length_le (by omega)
        have h1 : idx + 1 - (colS.tasks.take idx).length = 1 := by omega
        rw [hd, List.nil_append, h1]
        rfl
      have hT2 : getCol (setTasks (setTasks s.board.columns cId
          (colS.tasks.take idx ++
            editedTask t title description priority due :: colS.tasks.drop (idx + 1)))
          cId (colS.tasks.erase t)) target = some colT := by
        rw [getCol_setTasks_other _ _ _ _ hsame, getCol_setTasks_other _ _ _ _ hsame]
        exact hcolT
      refine ⟨{ s with board := { s.board with
          columns := setTasks (setTasks (setTasks s.board.columns cId
            (colS.tasks.take idx ++
              editedTask t title description priority due :: colS.tasks.drop (idx + 1)))
            cId (colS.tasks.erase t)) target
            (colT.tasks ++ [editedTask t title description priority due]) } },
        idx, ?_, rfl, hget, rfl, rfl, rfl, rfl, ?_, ?_, ?_⟩
      · simp only [editedTask] at hrepl hrem hT2 ⊢
        simp only [editTask, saveTask, htitle, if_false, keyOf, hediting, if_true, hfc,
          hsrcKey, hcolS, hf, hrepl, ne_eq, htargetKey, not_false_eq_true, hopt, hrem, hT2]
      · intro h
        exact absurd h hsame
      · intro _
        constructor
        · simp only
          rw [getCol_setTasks_other _ _ _ _ hne, setTasks_setTasks]
          exact getCol_setTasks_same _ _ _ _ hcolS
        · exact getCol_setTasks_same _ _ _ _ hT2
      · intro k hk1 hk2
        simp only
        rw [getCol_setTasks_other _ _ _ _ hk2, getCol_setTasks_other _ _ _ _ hk1,
          getCol_setTasks_other _ _ _ _ hk1]

/-- C12 as stated fails.  (1) The description is stored trimmed: editing B on the board with
tasks A, B, C with description "  note  " stores "note".  (2) On `ghostOrderState` (distinct
task ids, B in the listed column "todo", target "todo" exists) `findTaskColumn` stops on a
`TypeError` at "ghost" and nothing is edited.  (3) On `emptyIdState` the existing target ""
is taken for a missing one and replaced by the first column "x": T is edited but stays in "x".
(4) On `emptySrcState` T's column has the id "", which `if (col)` takes for not found: nothing
is edited.  (5) On `emptyTaskIdState` the task id "" makes `if (editingId)` false and the save
handler adds a new task instead of editing. -/
theorem editTask_counterexamples :
    (editTask abcState "b" "B2" "  note  " "high" "" "todo" =
      .done { board :=
                { columnsOrder := ["todo", "progress", "done"]
                  columns :=
                    [ ("todo", { id := "todo", title := "To Do",
                                 tasks := [ sampleTask "a" "A",
                                            { sampleTask "b" "B" with
                                                title := "B2", description := "note",
                                                priority := "high" },
                                            sampleTask "c" "C" ] }),
                      ("progress", { id := "progress", title := "In Progress", tasks := [] }),
                      ("done", { id := "done", title := "Done", tasks := [] }) ] }
              lastDeleted := none }) ∧
    ((taskIds ghostOrderState.board).Nodup ∧ taskPresent ghostOrderState.board "b" ∧
      editTask ghostOrderState "b" "B2" "" "low" "" "todo" = .threw ghostOrderState) ∧
    (editTask emptyIdState "t" "T2" "" "low" "" "" =
      .done { board :=
                { columnsOrder := ["x", ""]
                  columns :=
                    [ ("x", { id := "x", title := "X",
                              tasks := [{ sampleTask "t" "T" with title := "T2" }] }),
                      ("", { id := "", title := "Unnamed", tasks := [] }) ] }
              lastDeleted := none }) ∧
    (editTask emptySrcState "t" "T2" "" "low" "" "x" = .done emptySrcState) ∧
    (saveTask emptyTaskIdState (some "") "T2" "" "low" "" "todo" "u9" "now" =
      .done { board :=
                { columnsOrder := ["todo"]
                  columns :=
                    [ ("todo", { id := "todo", title := "To Do",
                                 tasks := [ sampleTask "" "T",
                                            { id := "u9", title := "T2", description := "",
                                              priority := "low", due := "", subtasks := [],
                                              comments := [], createdAt := "now" } ] }) ] }
              lastDeleted := none }) := by
  refine ⟨by decide, ⟨by decide, by decide, by decide⟩, by decide, by decide, by decide⟩

/-- Witness of C12 on the board with tasks A, B, C: editing B and moving it to "done". -/
theorem editTask_spec_witness :
    orderHasColumns abcState.board ∧ (taskIds abcState.board).Nodup ∧
    jsTrim " B2 " ≠ "" ∧
    editTask abcState "b" " B2 " "  note  " "high" "2024-03-01" "done" =
      .done { board :=
                { columnsOrder := ["todo", "progress", "done"]
                  columns :=
                    [ ("todo", { id := "todo", title := "To Do",
                                 tasks := [sampleTask "a" "A", sampleTask "c" "C"] }),
                      ("progress", { id := "progress", title := "In Progress", tasks := [] }),
                      ("done", { id := "done", title := "Done",
                                 tasks := [{ sampleTask "b" "B" with
                                               title := "B2", description := "note",
                                               priority := "high",
                                               due := "2024-03-01" }] }) ] }
              lastDeleted := none } ∧
    ∃ (s2 : State) (idx : Nat),
      editTask abcState (sampleTask "b" "B").id " B2 " "  note  " "high" "2024-03-01"
        "done" = .done s2 ∧
      s2.board.columnsOrder = abcState.board.columnsOrder ∧
      [sampleTask "a" "A", sampleTask "b" "B", sampleTask "c" "C"][idx]? =
        some (sampleTask "b" "B") :=
  have hcols : orderHasColumns abcState.board := by decide
  have hnodup : (taskIds abcState.board).Nodup := by decide
  have htitle : jsTrim " B2 " ≠ "" := by decide
  ⟨hcols, hnodup, htitle, by decide,
    ((editTask_spec abcState (sampleTask "b" "B") "todo" "done"
        { id := "todo", title := "To Do",
          tasks := [sampleTask "a" "A", sampleTask "b" "B", sampleTask "c" "C"] }
        { id := "done", title := "Done", tasks := [] }
        " B2 " "  note  " "high" "2024-03-01" hcols hnodup (by decide) rfl (by decide) rfl
        (by decide) (by decide) (by decide)).2 htitle).elim
      fun s2 h => h.elim fun idx hh => ⟨s2, idx, hh.1, hh.2.1, hh.2.2.1⟩⟩

end Kanban
